import Mathlib

/-!  Verification of the VoltDB Go client's connection/dispatch core
(`voltdbclient/conn.go`).

The Go source is shallowly embedded.  All mutable heap state — the
process-global handle counter `qHandle`, the `VoltConn` objects, the two
pending-future types, the network listener's registry — is collected in an
explicit `World` record, and every Go method becomes a pure function from
`World` (plus its arguments and any environment inputs, such as the value a
channel receive yields) to a new `World` and the method's return values.

Go-specific semantics that matter here are modelled explicitly:

* Every `VoltConn` method has a VALUE receiver (`func (vc VoltConn) ...`),
  so the body runs on a copy of the struct: writes to scalar fields of the
  receiver (`isOpen`, `reader`, `nlwg`, ...) affect only the copy and are
  lost, while writes through reference-typed fields (the two Go maps, the
  `netListener` pointer, the TCP connection held in `reader`/`writer`)
  persist.  `VoltConn` is accordingly split into `ConnFields` (the scalar,
  copied part) and `ConnShared` (the part reachable through references).

* `sync.WaitGroup` is a plain value: assigning or passing it copies the
  counter.  `newVoltConn` passes `vc.nlwg` to `newListener` BY VALUE
  (conn.go line 60), so the listener operates on its own copy.

* The `NetworkListener` implementation lives in a file of the repository
  that is not part of the sources under review; its registry and lifecycle
  are modelled from the spec (sections 4.4 and 2): `registerQuery/Exec`
  adds the handle to the listener's registry and creates the delivery
  channel, `removeQuery/Exec` deletes it, delivery removes the handle, and
  `stop()`/loop exit follow the documented stop protocol.
-/

/-- First-match lookup in an association list (a Go map read `m[k]`). -/
def lookupA {α β : Type} [DecidableEq α] : List (α × β) → α → Option β
  | [], _ => none
  | (k, v) :: t, a => if k = a then some v else lookupA t a

/-- Remove every binding of key `k` (Go `delete(m, k)`). -/
def eraseA {α β : Type} [DecidableEq α] (l : List (α × β)) (k : α) : List (α × β) :=
  l.filter (fun p => p.1 ≠ k)

/-- Bind key `k` to `v`, removing any previous binding (Go `m[k] = v`). -/
def insertA {α β : Type} [DecidableEq α] (l : List (α × β)) (k : α) (v : β) : List (α × β) :=
  (k, v) :: eraseA l k

theorem lookupA_eraseA {α β : Type} [DecidableEq α] (l : List (α × β)) (k a : α) :
    lookupA (eraseA l k) a = if a = k then none else lookupA l a := by
  induction l with
  | nil => simp [eraseA, lookupA]
  | cons p t ih =>
    rcases p with ⟨pk, pv⟩
    by_cases hpk : pk = k
    · have hdrop : eraseA ((pk, pv) :: t) k = eraseA t k := by
        simp [eraseA, List.filter_cons, hpk]
      rw [hdrop, ih]
      by_cases hak : a = k
      · simp [hak]
      · have hpa : ¬ pk = a := by rw [hpk]; exact fun h => hak h.symm
        simp [lookupA, hpa, hak]
    · have hkeep : eraseA ((pk, pv) :: t) k = (pk, pv) :: eraseA t k := by
        simp [eraseA, List.filter_cons, hpk]
      rw [hkeep]
      by_cases hpa : pk = a
      · have hak : ¬ a = k := fun h => hpk (hpa.symm ▸ h)
        simp [lookupA, hpa, hak]
      · simp [lookupA, hpa, ih]

theorem lookupA_insertA_self {α β : Type} [DecidableEq α] (l : List (α × β)) (k : α) (v : β) :
    lookupA (insertA l k v) k = some v := by
  simp [insertA, lookupA]

theorem lookupA_insertA_ne {α β : Type} [DecidableEq α] (l : List (α × β)) (k a : α) (v : β)
    (h : a ≠ k) : lookupA (insertA l k v) a = lookupA l a := by
  have hk : ¬ k = a := fun h' => h h'.symm
  show (if k = a then some v else lookupA (eraseA l k) a) = lookupA l a
  rw [if_neg hk, lookupA_eraseA, if_neg h]

theorem mem_eraseA {α β : Type} [DecidableEq α] (l : List (α × β)) (k : α) (p : α × β) :
    p ∈ eraseA l k ↔ p ∈ l ∧ p.1 ≠ k := by
  simp [eraseA, List.mem_filter]

theorem mem_insertA {α β : Type} [DecidableEq α] (l : List (α × β)) (k : α) (v : β) (p : α × β)
    (h : p ∈ insertA l k v) : p = (k, v) ∨ p ∈ l := by
  rw [insertA, List.mem_cons] at h
  rcases h with h | h
  · exact Or.inl h
  · exact Or.inr ((mem_eraseA l k p).mp h).1

theorem lookupA_mem {α β : Type} [DecidableEq α] (l : List (α × β)) (a : α) (b : β)
    (h : lookupA l a = some b) : (a, b) ∈ l := by
  induction l with
  | nil => simp [lookupA] at h
  | cons p t ih =>
    rcases p with ⟨pk, pv⟩
    by_cases hpa : pk = a
    · subst hpa
      simp [lookupA] at h
      simp [h]
    · simp [lookupA, hpa] at h
      exact List.mem_cons_of_mem _ (ih h)

/-- A decoded query response as delivered on a query future's channel: a
`VoltRows` value, possibly carrying an application error (the source reads
it with `vrows.error()`), plus an opaque payload identifying the row data. -/
structure VoltRows where
  err : Option String
  payload : Nat
deriving DecidableEq, Repr

/-- The zero value `VoltRows{}` returned by the error path of `Query`. -/
def VoltRows.zero : VoltRows := { err := none, payload := 0 }

/-- The scalar (value-typed) fields of the `VoltConn` struct (conn.go
42–51).  These are copied whenever a value-receiver method is invoked.
`nlwg` is the `sync.WaitGroup` counter: a plain value, so every copy of the
struct carries its own counter.  `hasReader` is `vc.reader != nil`. -/
structure ConnFields where
  isOpen : Bool
  hasReader : Bool
  nlwg : Int
deriving DecidableEq, Repr

/-- The state of one connection reachable through references, shared by all
copies of the struct: the two outstanding-future Go maps (`vc.queries`,
`vc.execs`, mapping handle to future id), the network listener's registry
and lifecycle, and the TCP stream.  The listener fields are modelled from
the spec (section 4.4): the listener owns a registry of pending handles,
runs a loop until told to stop or the read fails, and signals completion on
the WaitGroup it was handed — which, per conn.go line 60, is a BY-VALUE
copy of the connection's `nlwg`, recorded here as `listenerWg`. -/
structure ConnShared where
  queries : List (Int × Nat)
  execs : List (Int × Nat)
  nlQueries : List Int
  nlExecs : List Int
  nlShouldStop : Bool
  listenerRunning : Bool
  listenerWg : Int
  streamClosed : Bool
  wire : List Int
deriving DecidableEq, Repr

/-- One `VoltConn` heap object: its copied scalar fields plus the state
reachable through its reference-typed fields. -/
structure VoltConn where
  fields : ConnFields
  shared : ConnShared
deriving DecidableEq, Repr

/-- `VoltQueryResult` (conn.go 272–279): a pending query future.  `conn` is
the id of the owning connection (`vqr.conn`), `han` the correlation handle;
the delivery channel is identified by the handle.  `rows`/`err` are the
stored outcome, `active` the lifecycle flag. -/
structure VoltQueryResult where
  conn : Nat
  han : Int
  rows : Option VoltRows
  err : Option String
  active : Bool
deriving DecidableEq, Repr

/-- `VoltExecResult` (conn.go 332–339): a pending exec future.  The decoded
`driver.Result` payload is opaque and represented by a `Nat`. -/
structure VoltExecResult where
  conn : Nat
  han : Int
  result : Option Nat
  err : Option String
  active : Bool
deriving DecidableEq, Repr

/-- The whole mutable state of the embedded program: the process-global
handle counter `qHandle` (conn.go 32), the heap of connections and futures
(addressed by `Nat` ids, with `nextCid`/`nextFid` the allocators), and
`allocated`, a ghost log recording every handle handed out, oldest first. -/
structure World where
  qHandle : Int
  allocated : List Int
  conns : List (Nat × VoltConn)
  nextCid : Nat
  queryFuts : List (Nat × VoltQueryResult)
  execFuts : List (Nat × VoltExecResult)
  nextFid : Nat
deriving DecidableEq, Repr

/-- The initial state of the process: `var qHandle int64 = 0`, no
connections, no futures. -/
def World.init : World :=
  { qHandle := 0, allocated := [], conns := [], nextCid := 0,
    queryFuts := [], execFuts := [], nextFid := 0 }

/-- Two's-complement wraparound of a 64-bit signed integer, as performed by
Go's `int64` arithmetic. -/
def int64Wrap (n : Int) : Int := (n + 2 ^ 63) % 2 ^ 64 - 2 ^ 63

theorem int64Wrap_eq_self (n : Int) (h0 : -2 ^ 63 ≤ n) (h1 : n < 2 ^ 63) :
    int64Wrap n = n := by
  unfold int64Wrap
  rw [Int.emod_eq_of_lt (by omega) (by omega)]
  omega

/-- `handle := atomic.AddInt64(&qHandle, 1)` (conn.go 115, 128, 143, 156):
increment the process-global counter with `int64` wraparound and return the
new value, logging it in the ghost `allocated` trace. -/
def allocHandle (w : World) : Int × World :=
  let h := int64Wrap (w.qHandle + 1)
  (h, { w with qHandle := h, allocated := w.allocated ++ [h] })

/-- Store an updated connection object back into the heap. -/
def updateConn (w : World) (cid : Nat) (c : VoltConn) : World :=
  { w with conns := insertA w.conns cid c }

/-- `vc.removeQuery(han)` (conn.go 247–249): delete the handle from the
connection's `queries` map. -/
def connRemoveQuery (w : World) (cid : Nat) (h : Int) : World :=
  match lookupA w.conns cid with
  | none => w
  | some c =>
      updateConn w cid
        { c with shared := { c.shared with queries := eraseA c.shared.queries h } }

/-- `vc.removeExec(han)` (conn.go 243–245): delete the handle from the
connection's `execs` map. -/
def connRemoveExec (w : World) (cid : Nat) (h : Int) : World :=
  match lookupA w.conns cid with
  | none => w
  | some c =>
      updateConn w cid
        { c with shared := { c.shared with execs := eraseA c.shared.execs h } }

/-- Modelled from the spec: `netListener.removeQuery(handle)` deletes the
handle from the listener's registry of pending query handles. -/
def nlRemoveQuery (w : World) (cid : Nat) (h : Int) : World :=
  match lookupA w.conns cid with
  | none => w
  | some c =>
      updateConn w cid
        { c with shared :=
            { c.shared with nlQueries := c.shared.nlQueries.filter (fun x => x ≠ h) } }

/-- Modelled from the spec: `netListener.removeExec(handle)` deletes the
handle from the listener's registry of pending exec handles. -/
def nlRemoveExec (w : World) (cid : Nat) (h : Int) : World :=
  match lookupA w.conns cid with
  | none => w
  | some c =>
      updateConn w cid
        { c with shared :=
            { c.shared with nlExecs := c.shared.nlExecs.filter (fun x => x ≠ h) } }

example : lookupA (insertA ([] : List (Int × Nat)) 3 5) 3 = some 5 := by decide
example : int64Wrap 7 = 7 := by decide

/-- Outcome of a setter that may hit the defensive already-resolved check:
either a normal successor state or a Go `panic` with its message. -/
inductive SetR where
  | ok (w : World)
  | panicked (msg : String)
deriving DecidableEq, Repr

/-- `VoltQueryResult.setError` (conn.go 320–324): store the error, mark the
future inactive, and `vqr.conn.removeQuery(vqr.han)` — all in one
operation.  There is NO already-resolved check in the source: calling this
on an inactive future silently overwrites the stored outcome. -/
def VoltQueryResult.setError (w : World) (fid : Nat) (e : String) : World :=
  match lookupA w.queryFuts fid with
  | none => w
  | some f =>
      let f' : VoltQueryResult := { f with err := some e, active := false }
      let w' : World := { w with queryFuts := insertA w.queryFuts fid f' }
      connRemoveQuery w' f.conn f.han

/-- `VoltQueryResult.setRows` (conn.go 326–330): store the rows, mark the
future inactive, and `vqr.conn.removeQuery(vqr.han)`.  As with `setError`,
the source has NO already-resolved check here. -/
def VoltQueryResult.setRows (w : World) (fid : Nat) (r : VoltRows) : World :=
  match lookupA w.queryFuts fid with
  | none => w
  | some f =>
      let f' : VoltQueryResult := { f with rows := some r, active := false }
      let w' : World := { w with queryFuts := insertA w.queryFuts fid f' }
      connRemoveQuery w' f.conn f.han

/-- `VoltExecResult.setError` (conn.go 372–376): store the error,
`ver.conn.removeExec(ver.han)`, mark inactive.  No already-resolved check. -/
def VoltExecResult.setError (w : World) (fid : Nat) (e : String) : World :=
  match lookupA w.execFuts fid with
  | none => w
  | some f =>
      let f' : VoltExecResult := { f with err := some e, active := false }
      let w' : World := { w with execFuts := insertA w.execFuts fid f' }
      connRemoveExec w' f.conn f.han

/-- `VoltExecResult.setResult` (conn.go 378–385): the ONLY setter carrying
the defensive check — `if !ver.active { panic("Tried to set result on
inactive exec result") }` — then stores the result, removes the handle from
the connection's map, and marks the future inactive. -/
def VoltExecResult.setResult (w : World) (fid : Nat) (r : Nat) : SetR :=
  match lookupA w.execFuts fid with
  | none => SetR.ok w
  | some f =>
      if f.active = false then
        SetR.panicked "Tried to set result on inactive exec result"
      else
        let f' : VoltExecResult := { f with result := some r, active := false }
        let w' : World := { w with execFuts := insertA w.execFuts fid f' }
        SetR.ok (connRemoveExec w' f.conn f.han)

/-- `vqr.isActive()` for a future id: `false` also when no such future
exists. -/
def fidQActive (w : World) (fid : Nat) : Bool :=
  match lookupA w.queryFuts fid with
  | some f => f.active
  | none => false

/-- `VoltQueryResult.Rows` (conn.go 290–306).  If the future is inactive
the stored outcome is returned unchanged; otherwise the method blocks on
`<-vqr.ch` — the environment input `resp` is the `VoltRows` value that
receive yields (the listener, modelled from the spec, removes the handle
from its registry upon delivering it) — and resolves the future with
`setError` or `setRows` according to `vrows.error()`. -/
def VoltQueryResult.Rows (w : World) (fid : Nat) (resp : VoltRows) :
    World × Option VoltRows × Option String :=
  match lookupA w.queryFuts fid with
  | none => (w, none, none)
  | some f =>
      if f.active = false then
        match f.err with
        | some e => (w, none, some e)
        | none => (w, f.rows, none)
      else
        let w := nlRemoveQuery w f.conn f.han
        match resp.err with
        | some e => (VoltQueryResult.setError w fid e, none, some e)
        | none => (VoltQueryResult.setRows w fid resp, some resp, none)

/-- `VoltExecResult.Result` (conn.go 350–358).  Inactive: `return
ver.result, ver.err` unchanged.  Active: block on `<-ver.ch` (the
environment input `resp` is the delivered `driver.Result`; the listener,
modelled from the spec, removes the handle from its registry), then
`setResult` and return the stored result with a nil error. -/
def VoltExecResult.Result (w : World) (fid : Nat) (resp : Nat) :
    World × Option Nat × Option String :=
  match lookupA w.execFuts fid with
  | none => (w, none, none)
  | some f =>
      if f.active = false then
        (w, f.result, f.err)
      else
        let w := nlRemoveExec w f.conn f.han
        match VoltExecResult.setResult w fid resp with
        | SetR.ok w' => (w', some resp, none)
        | SetR.panicked _ => (w, none, none)

/-- A destination for `io.Copy`: the bytes written so far and whether the
underlying stream rejects writes. -/
structure GoWriter where
  buf : List Int
  fails : Bool
deriving DecidableEq, Repr

/-- `io.Copy(writer, src)`: returns the byte count and an error; a failing
stream accepts nothing. -/
def ioCopy (wtr : GoWriter) (src : List Int) : GoWriter × Nat × Option String :=
  if wtr.fails then (wtr, 0, some "write failed")
  else ({ wtr with buf := wtr.buf ++ src }, src.length, none)

/-- `VoltConn.serializeQuery` (conn.go 387–403) at the byte level.  `ser`
is the outcome of the external collaborator `serializeStatement(procedure,
handle, args)`.  On success the 4-byte length prefix and the payload are
assembled into `netmsg` and copied to the writer — and BOTH `io.Copy`
return values are discarded, so the function returns nil no matter what the
write did. -/
def serializeQuery (ser : Except String (List Int)) (wtr : GoWriter) :
    GoWriter × Option String :=
  match ser with
  | Except.error e => (wtr, some e)
  | Except.ok call =>
      let netmsg : List Int := (call.length : Int) :: call
      let copied := ioCopy wtr netmsg
      (copied.1, none)

/-- `serializeQuery` on a connection's shared state, as used by the four
call entry points.  `ser` again stands for `serializeStatement`'s outcome;
the frame actually reaching the wire is identified by its handle.  A write
failure (here: the stream is already closed) is invisible: nothing is
appended and, because the `io.Copy` results are discarded, no error is
returned. -/
def serializeQueryW (sh : ConnShared) (ser : Option String) (h : Int) :
    ConnShared × Option String :=
  match ser with
  | some e => (sh, some e)
  | none =>
      if sh.streamClosed then (sh, none)
      else ({ sh with wire := sh.wire ++ [h] }, none)

/-- `newVoltConn` (conn.go 53–64): allocate a fresh connection with empty
`execs`/`queries` maps, a zeroed `nlwg`, and the listener started.  Line 60
passes `vc.nlwg` to `newListener` BY VALUE, so the listener holds its own
copy of the WaitGroup; its `start()` (modelled from the spec, section 4.4)
launches the loop, which registers itself on that copy (`listenerWg = 1`)
and will signal completion on it — never on the connection's `nlwg`, which
stays 0 forever. -/
def newVoltConn (w : World) : World × Nat :=
  let cid := w.nextCid
  let fs : ConnFields := { isOpen := true, hasReader := true, nlwg := 0 }
  let sh : ConnShared :=
    { queries := [], execs := [], nlQueries := [], nlExecs := [],
      nlShouldStop := false, listenerRunning := true, listenerWg := 1,
      streamClosed := false, wire := [] }
  ({ w with conns := insertA w.conns cid { fields := fs, shared := sh },
            nextCid := cid + 1 }, cid)

/-- Modelled from the spec (section 4.4 stop protocol): the listener loop
exits — having observed the stop signal or a read error — and signals
completion by `Done()` on its OWN WaitGroup copy. -/
def listenerExit (w : World) (cid : Nat) : World :=
  match lookupA w.conns cid with
  | none => w
  | some c =>
      updateConn w cid
        { c with shared := { c.shared with listenerRunning := false, listenerWg := 0 } }

/-- The body of `VoltConn.Close` (conn.go 70–83), run on the receiver COPY
`vc`.  `vc.netListener.stop()` acts through the shared listener pointer;
`vc.nlwg.Wait()` returns only once the copy's own WaitGroup counter is
zero — and since nothing in conn.go ever `Add`s to it and the listener
holds a distinct copy, a nonzero counter could never be decremented, so
that case is modelled as blocking forever (`none`).  Closing the TCP
connection acts through the shared stream; the field assignments
(`reader`, `writer`, `connData` to nil, `isOpen` to false) hit the copy. -/
def closeBody (vc : ConnFields) (sh : ConnShared) :
    Option (ConnFields × ConnShared × Option String) :=
  let sh1 : ConnShared := { sh with nlShouldStop := true }
  if vc.nlwg = 0 then
    let sh2 : ConnShared :=
      if vc.hasReader then { sh1 with streamClosed := true } else sh1
    some ({ vc with hasReader := false, isOpen := false }, sh2, none)
  else
    none

/-- The Go call `conn.Close()` on a `*VoltConn`: `Close` has a VALUE
receiver, so the body's writes to the receiver's scalar fields affect only
the copy and are discarded here; only effects through shared references
persist.  In particular the heap object's `isOpen` is NOT changed. -/
def VoltConn.Close (w : World) (cid : Nat) : World × Option String :=
  match lookupA w.conns cid with
  | none => (w, none)
  | some c =>
      match closeBody c.fields c.shared with
      | none => (w, none)
      | some x => (updateConn w cid { c with shared := x.2.1 }, x.2.2)

/-- `VoltConn.Exec` (conn.go 111–122), synchronous.  `ser` is the outcome
of `serializeStatement`; `resp` is the `driver.Result` the blocking receive
`<-c` eventually yields (delivered by the listener, which removes the
handle from its registry — modelled from the spec).  The closed check
returns `(nil, "Connection is closed")`; the send-failure path returns
`(VoltResult{}, err)` — modelled as `(some 0, some err)` — after
`netListener.removeExec(handle)`; the success path returns `(<-c, nil)`. -/
def VoltConn.Exec (w : World) (cid : Nat) (ser : Option String) (resp : Nat) :
    World × Option Nat × Option String :=
  match lookupA w.conns cid with
  | none => (w, none, none)
  | some c =>
      if c.fields.isOpen = false then
        (w, none, some "Connection is closed")
      else
        let hw := allocHandle w
        let h := hw.1
        let c1 : VoltConn :=
          { c with shared := { c.shared with nlExecs := h :: c.shared.nlExecs } }
        let sq := serializeQueryW c1.shared ser h
        match sq.2 with
        | some e =>
            let c2 : VoltConn :=
              { c1 with shared := { sq.1 with nlExecs := sq.1.nlExecs.filter (fun x => x ≠ h) } }
            (updateConn hw.2 cid c2, some 0, some e)
        | none =>
            let c2 : VoltConn :=
              { c1 with shared := { sq.1 with nlExecs := sq.1.nlExecs.filter (fun x => x ≠ h) } }
            (updateConn hw.2 cid c2, some resp, none)

/-- `VoltConn.ExecAsync` (conn.go 124–137).  Allocates the handle, registers
it with the listener, creates the future, adds it to the connection's
`execs` map (`vc.registerExec`), then serializes.  On a serialize error the
handle is removed from the LISTENER's registry only — the future stays in
`vc.execs` — and `(nil, err)` is returned.  On success the future id is
returned with a nil error. -/
def VoltConn.ExecAsync (w : World) (cid : Nat) (ser : Option String) :
    World × Option Nat × Option String :=
  match lookupA w.conns cid with
  | none => (w, none, none)
  | some c =>
      if c.fields.isOpen = false then
        (w, none, some "Connection is closed")
      else
        let hw := allocHandle w
        let h := hw.1
        let fid := hw.2.nextFid
        let ver : VoltExecResult :=
          { conn := cid, han := h, result := none, err := none, active := true }
        let w1 : World :=
          { hw.2 with execFuts := insertA hw.2.execFuts fid ver, nextFid := fid + 1 }
        let sh1 : ConnShared := { c.shared with nlExecs := h :: c.shared.nlExecs }
        let sh2 : ConnShared := { sh1 with execs := insertA sh1.execs h fid }
        let sq := serializeQueryW sh2 ser h
        match sq.2 with
        | some e =>
            let sh3 : ConnShared := { sq.1 with nlExecs := sq.1.nlExecs.filter (fun x => x ≠ h) }
            (updateConn w1 cid { c with shared := sh3 }, none, some e)
        | none =>
            (updateConn w1 cid { c with shared := sq.1 }, some fid, none)

/-- `VoltConn.Query` (conn.go 139–150), synchronous.  Identical structure
to `Exec`; the error path returns `(VoltRows{}, err)` and the success path
returns `(<-c, nil)` — the received `VoltRows` with a NIL error, whatever
error the rows themselves may carry. -/
def VoltConn.Query (w : World) (cid : Nat) (ser : Option String) (resp : VoltRows) :
    World × Option VoltRows × Option String :=
  match lookupA w.conns cid with
  | none => (w, none, none)
  | some c =>
      if c.fields.isOpen = false then
        (w, none, some "Connection is closed")
      else
        let hw := allocHandle w
        let h := hw.1
        let c1 : VoltConn :=
          { c with shared := { c.shared with nlQueries := h :: c.shared.nlQueries } }
        let sq := serializeQueryW c1.shared ser h
        match sq.2 with
        | some e =>
            let c2 : VoltConn :=
              { c1 with shared := { sq.1 with nlQueries := sq.1.nlQueries.filter (fun x => x ≠ h) } }
            (updateConn hw.2 cid c2, some VoltRows.zero, some e)
        | none =>
            let c2 : VoltConn :=
              { c1 with shared := { sq.1 with nlQueries := sq.1.nlQueries.filter (fun x => x ≠ h) } }
            (updateConn hw.2 cid c2, some resp, none)

/-- `VoltConn.QueryAsync` (conn.go 152–165): same shape as `ExecAsync`,
with the same asymmetry on the serialize-error path — the handle leaves the
listener's registry but the future stays in `vc.queries`. -/
def VoltConn.QueryAsync (w : World) (cid : Nat) (ser : Option String) :
    World × Option Nat × Option String :=
  match lookupA w.conns cid with
  | none => (w, none, none)
  | some c =>
      if c.fields.isOpen = false then
        (w, none, some "Connection is closed")
      else
        let hw := allocHandle w
        let h := hw.1
        let fid := hw.2.nextFid
        let vqr : VoltQueryResult :=
          { conn := cid, han := h, rows := none, err := none, active := true }
        let w1 : World :=
          { hw.2 with queryFuts := insertA hw.2.queryFuts fid vqr, nextFid := fid + 1 }
        let sh1 : ConnShared := { c.shared with nlQueries := h :: c.shared.nlQueries }
        let sh2 : ConnShared := { sh1 with queries := insertA sh1.queries h fid }
        let sq := serializeQueryW sh2 ser h
        match sq.2 with
        | some e =>
            let sh3 : ConnShared := { sq.1 with nlQueries := sq.1.nlQueries.filter (fun x => x ≠ h) }
            (updateConn w1 cid { c with shared := sh3 }, none, some e)
        | none =>
            (updateConn w1 cid { c with shared := sq.1 }, some fid, none)

/-- `VoltConn.ExecutingQueries` (conn.go 224–233): a shallow copy of the
values of `vc.queries` — the future ids, not the futures themselves. -/
def VoltConn.ExecutingQueries (w : World) (cid : Nat) : List Nat :=
  match lookupA w.conns cid with
  | none => []
  | some c => c.shared.queries.map (fun p => p.2)

/-- The slice idiom of conn.go 180–186: overwrite position `i` with the
last element, then truncate — removing position `i` in O(1). -/
def swapRemove (l : List Nat) (i : Nat) : List Nat :=
  (l.set i (l.getLastD 0)).dropLast

/-- What one `reflect.Select` receive can yield in `Drain` (conn.go
178–209): the channel was closed (`!ok`), or a `driver.Rows` value — always
a `VoltRows` here, since the listener (modelled from the spec) sends
`VoltRows` values on `chan driver.Rows` channels; the source's two
defensive branches for a non-interface or non-`driver.Rows` value cannot
fire for such a channel and are not modelled. -/
inductive DrainMsg where
  | closed
  | rows (r : VoltRows)
deriving DecidableEq, Repr

/-- How one receive outcome resolves the chosen future, mirroring conn.go
189–208: a closed channel or an error-carrying `VoltRows` goes to
`setError`, a clean `VoltRows` to `setRows`. -/
def drainResolve (w : World) (fid : Nat) (msg : DrainMsg) : World :=
  match msg with
  | DrainMsg.closed =>
      VoltQueryResult.setError w fid "Result was not available, channel was closed"
  | DrainMsg.rows r =>
      match r.err with
      | some e => VoltQueryResult.setError w fid e
      | none => VoltQueryResult.setRows w fid r

/-- The `for len(idxs) > 0` loop of `VoltConn.Drain` (conn.go 177–210).
`pending` holds the future ids still being waited on (the source's `idxs`,
resolved through `vqrs`); each schedule entry stands for one
`reflect.Select` completion: `choice` picks the ready case (taken modulo
the current length, so every schedule covers every completion order) and
`msg` is what the receive yielded.  The chosen future is resolved with
`setError` or `setRows` exactly as in the source and removed from the wait
set with the swap-remove idiom.  An exhausted schedule with a non-empty
wait set is `reflect.Select` blocking forever: the loop performs no further
step.  Returns the final state and the number of receives performed. -/
def drainLoop (w : World) (pending : List Nat) (sched : List (Nat × DrainMsg)) :
    World × Nat :=
  match pending with
  | [] => (w, 0)
  | p0 :: ps =>
      match sched with
      | [] => (w, 0)
      | (choice, msg) :: rest =>
          let i := choice % (p0 :: ps).length
          let fid := (p0 :: ps).getD i 0
          let done := drainLoop (drainResolve w fid msg) (swapRemove (p0 :: ps) i) rest
          (done.1, done.2 + 1)

/-- `VoltConn.Drain` (conn.go 167–211): build the wait set from the futures
of `vqrs` that are active at entry (conn.go 170–175 — inactive ones are
skipped and never waited on), then run the select loop. -/
def VoltConn.Drain (w : World) (vqrs : List Nat) (sched : List (Nat × DrainMsg)) :
    World × Nat :=
  drainLoop w (vqrs.filter (fun fid => fidQActive w fid)) sched

/-- One completed interaction with the embedded program.  Serialize
outcomes, delivered responses and drain schedules are environment inputs
carried by the operation. -/
inductive Op where
  | openC
  | closeC (cid : Nat)
  | exitC (cid : Nat)
  | execS (cid : Nat) (ser : Option String) (resp : Nat)
  | execA (cid : Nat) (ser : Option String)
  | queryS (cid : Nat) (ser : Option String) (resp : VoltRows)
  | queryA (cid : Nat) (ser : Option String)
  | readRows (fid : Nat) (resp : VoltRows)
  | readResult (fid : Nat) (resp : Nat)
  | drainC (vqrs : List Nat) (sched : List (Nat × DrainMsg))
deriving DecidableEq, Repr

/-- The state transition of one operation (return values discarded). -/
def stepOp (w : World) : Op → World
  | Op.openC => (newVoltConn w).1
  | Op.closeC cid => (VoltConn.Close w cid).1
  | Op.exitC cid => listenerExit w cid
  | Op.execS cid ser resp => (VoltConn.Exec w cid ser resp).1
  | Op.execA cid ser => (VoltConn.ExecAsync w cid ser).1
  | Op.queryS cid ser resp => (VoltConn.Query w cid ser resp).1
  | Op.queryA cid ser => (VoltConn.QueryAsync w cid ser).1
  | Op.readRows fid resp => (VoltQueryResult.Rows w fid resp).1
  | Op.readResult fid resp => (VoltExecResult.Result w fid resp).1
  | Op.drainC vqrs sched => (VoltConn.Drain w vqrs sched).1

/-- Run a straight-line trace of operations. -/
def run (w : World) : List Op → World
  | [] => w
  | o :: os => run (stepOp w o) os

/-- Run a trace from the initial state of the process. -/
def runOps (ops : List Op) : World := run World.init ops

theorem connRemoveQuery_frame (w : World) (cid : Nat) (h : Int) :
    (connRemoveQuery w cid h).queryFuts = w.queryFuts ∧
    (connRemoveQuery w cid h).execFuts = w.execFuts ∧
    (connRemoveQuery w cid h).qHandle = w.qHandle ∧
    (connRemoveQuery w cid h).allocated = w.allocated ∧
    (connRemoveQuery w cid h).nextFid = w.nextFid := by
  unfold connRemoveQuery updateConn
  split <;> simp

theorem connRemoveExec_frame (w : World) (cid : Nat) (h : Int) :
    (connRemoveExec w cid h).queryFuts = w.queryFuts ∧
    (connRemoveExec w cid h).execFuts = w.execFuts ∧
    (connRemoveExec w cid h).qHandle = w.qHandle ∧
    (connRemoveExec w cid h).allocated = w.allocated ∧
    (connRemoveExec w cid h).nextFid = w.nextFid := by
  unfold connRemoveExec updateConn
  split <;> simp

theorem nlRemoveQuery_frame (w : World) (cid : Nat) (h : Int) :
    (nlRemoveQuery w cid h).queryFuts = w.queryFuts ∧
    (nlRemoveQuery w cid h).execFuts = w.execFuts ∧
    (nlRemoveQuery w cid h).qHandle = w.qHandle ∧
    (nlRemoveQuery w cid h).allocated = w.allocated ∧
    (nlRemoveQuery w cid h).nextFid = w.nextFid := by
  unfold nlRemoveQuery updateConn
  split <;> simp

theorem nlRemoveExec_frame (w : World) (cid : Nat) (h : Int) :
    (nlRemoveExec w cid h).queryFuts = w.queryFuts ∧
    (nlRemoveExec w cid h).execFuts = w.execFuts ∧
    (nlRemoveExec w cid h).qHandle = w.qHandle ∧
    (nlRemoveExec w cid h).allocated = w.allocated ∧
    (nlRemoveExec w cid h).nextFid = w.nextFid := by
  unfold nlRemoveExec updateConn
  split <;> simp

theorem setErrorQ_frame (w : World) (fid : Nat) (e : String) :
    (VoltQueryResult.setError w fid e).qHandle = w.qHandle ∧
    (VoltQueryResult.setError w fid e).allocated = w.allocated ∧
    (VoltQueryResult.setError w fid e).execFuts = w.execFuts ∧
    (VoltQueryResult.setError w fid e).nextFid = w.nextFid := by
  unfold VoltQueryResult.setError
  split
  · exact ⟨rfl, rfl, rfl, rfl⟩
  · refine ⟨(connRemoveQuery_frame _ _ _).2.2.1, (connRemoveQuery_frame _ _ _).2.2.2.1,
      (connRemoveQuery_frame _ _ _).2.1, (connRemoveQuery_frame _ _ _).2.2.2.2⟩

theorem setRowsQ_frame (w : World) (fid : Nat) (r : VoltRows) :
    (VoltQueryResult.setRows w fid r).qHandle = w.qHandle ∧
    (VoltQueryResult.setRows w fid r).allocated = w.allocated ∧
    (VoltQueryResult.setRows w fid r).execFuts = w.execFuts ∧
    (VoltQueryResult.setRows w fid r).nextFid = w.nextFid := by
  unfold VoltQueryResult.setRows
  split
  · exact ⟨rfl, rfl, rfl, rfl⟩
  · refine ⟨(connRemoveQuery_frame _ _ _).2.2.1, (connRemoveQuery_frame _ _ _).2.2.2.1,
      (connRemoveQuery_frame _ _ _).2.1, (connRemoveQuery_frame _ _ _).2.2.2.2⟩

theorem setErrorE_frame (w : World) (fid : Nat) (e : String) :
    (VoltExecResult.setError w fid e).qHandle = w.qHandle ∧
    (VoltExecResult.setError w fid e).allocated = w.allocated ∧
    (VoltExecResult.setError w fid e).queryFuts = w.queryFuts ∧
    (VoltExecResult.setError w fid e).nextFid = w.nextFid := by
  unfold VoltExecResult.setError
  split
  · exact ⟨rfl, rfl, rfl, rfl⟩
  · refine ⟨(connRemoveExec_frame _ _ _).2.2.1, (connRemoveExec_frame _ _ _).2.2.2.1,
      (connRemoveExec_frame _ _ _).1, (connRemoveExec_frame _ _ _).2.2.2.2⟩

theorem setResultE_frame (w : World) (fid : Nat) (r : Nat) (w' : World)
    (h : VoltExecResult.setResult w fid r = SetR.ok w') :
    w'.qHandle = w.qHandle ∧ w'.allocated = w.allocated ∧
    w'.queryFuts = w.queryFuts ∧ w'.nextFid = w.nextFid := by
  unfold VoltExecResult.setResult at h
  revert h
  split
  · intro h
    cases h
    exact ⟨rfl, rfl, rfl, rfl⟩
  · split
    · intro h
      cases h
    · intro h
      cases h
      refine ⟨(connRemoveExec_frame _ _ _).2.2.1, (connRemoveExec_frame _ _ _).2.2.2.1,
        (connRemoveExec_frame _ _ _).1, (connRemoveExec_frame _ _ _).2.2.2.2⟩

theorem rowsRead_frame (w : World) (fid : Nat) (resp : VoltRows) :
    (VoltQueryResult.Rows w fid resp).1.qHandle = w.qHandle ∧
    (VoltQueryResult.Rows w fid resp).1.allocated = w.allocated := by
  unfold VoltQueryResult.Rows
  split
  · exact ⟨rfl, rfl⟩
  · split
    · split <;> exact ⟨rfl, rfl⟩
    · split
      · constructor
        · rw [(setErrorQ_frame _ _ _).1, (nlRemoveQuery_frame _ _ _).2.2.1]
        · rw [(setErrorQ_frame _ _ _).2.1, (nlRemoveQuery_frame _ _ _).2.2.2.1]
      · constructor
        · rw [(setRowsQ_frame _ _ _).1, (nlRemoveQuery_frame _ _ _).2.2.1]
        · rw [(setRowsQ_frame _ _ _).2.1, (nlRemoveQuery_frame _ _ _).2.2.2.1]

theorem resultRead_frame (w : World) (fid : Nat) (resp : Nat) :
    (VoltExecResult.Result w fid resp).1.qHandle = w.qHandle ∧
    (VoltExecResult.Result w fid resp).1.allocated = w.allocated := by
  unfold VoltExecResult.Result
  split
  · exact ⟨rfl, rfl⟩
  · split
    · exact ⟨rfl, rfl⟩
    · simp only []
      split
      · next w' hok =>
          have hfr := setResultE_frame _ _ _ _ hok
          constructor
          · rw [hfr.1, (nlRemoveExec_frame _ _ _).2.2.1]
          · rw [hfr.2.1, (nlRemoveExec_frame _ _ _).2.2.2.1]
      · exact ⟨(nlRemoveExec_frame _ _ _).2.2.1, (nlRemoveExec_frame _ _ _).2.2.2.1⟩

theorem drainResolve_frame (w : World) (fid : Nat) (msg : DrainMsg) :
    (drainResolve w fid msg).qHandle = w.qHandle ∧
    (drainResolve w fid msg).allocated = w.allocated := by
  cases msg with
  | closed =>
      exact ⟨(setErrorQ_frame _ _ _).1, (setErrorQ_frame _ _ _).2.1⟩
  | rows r =>
      cases hre : r.err with
      | some e =>
          simp only [drainResolve, hre]
          exact ⟨(setErrorQ_frame _ _ _).1, (setErrorQ_frame _ _ _).2.1⟩
      | none =>
          simp only [drainResolve, hre]
          exact ⟨(setRowsQ_frame _ _ _).1, (setRowsQ_frame _ _ _).2.1⟩

theorem drainLoop_frame (sched : List (Nat × DrainMsg)) (pending : List Nat) (w : World) :
    (drainLoop w pending sched).1.qHandle = w.qHandle ∧
    (drainLoop w pending sched).1.allocated = w.allocated := by
  induction sched generalizing pending w with
  | nil => cases pending <;> simp [drainLoop]
  | cons s rest ih =>
      cases pending with
      | nil => simp [drainLoop]
      | cons p0 ps =>
          rcases s with ⟨choice, msg⟩
          simp only [drainLoop]
          constructor
          · rw [(ih _ _).1, (drainResolve_frame _ _ _).1]
          · rw [(ih _ _).2, (drainResolve_frame _ _ _).2]

theorem close_frame (w : World) (cid : Nat) :
    (VoltConn.Close w cid).1.qHandle = w.qHandle ∧
    (VoltConn.Close w cid).1.allocated = w.allocated ∧
    (VoltConn.Close w cid).1.queryFuts = w.queryFuts ∧
    (VoltConn.Close w cid).1.execFuts = w.execFuts ∧
    (VoltConn.Close w cid).1.nextFid = w.nextFid := by
  unfold VoltConn.Close updateConn
  split
  · exact ⟨rfl, rfl, rfl, rfl, rfl⟩
  · split
    · exact ⟨rfl, rfl, rfl, rfl, rfl⟩
    · exact ⟨rfl, rfl, rfl, rfl, rfl⟩

theorem listenerExit_frame (w : World) (cid : Nat) :
    (listenerExit w cid).qHandle = w.qHandle ∧
    (listenerExit w cid).allocated = w.allocated ∧
    (listenerExit w cid).queryFuts = w.queryFuts ∧
    (listenerExit w cid).execFuts = w.execFuts ∧
    (listenerExit w cid).nextFid = w.nextFid := by
  unfold listenerExit updateConn
  split <;> exact ⟨rfl, rfl, rfl, rfl, rfl⟩

/-- The world after one successful `OpenConn` (the handshake collaborators
succeeded and `newVoltConn` ran). -/
def wOpen : World := runOps [Op.openC]

/-- The heap `VoltConn` object that the `OpenConn` above created. -/
def connFresh : VoltConn :=
  { fields := { isOpen := true, hasReader := true, nlwg := 0 },
    shared := { queries := [], execs := [], nlQueries := [], nlExecs := [],
                nlShouldStop := false, listenerRunning := true, listenerWg := 1,
                streamClosed := false, wire := [] } }

example : lookupA wOpen.conns 0 = some connFresh := by decide

/-- C10: `serializeQuery` returns a non-nil error exactly when the external
`serializeStatement` (whose outcome is the `ser` argument) failed; both
`io.Copy` return values are discarded (conn.go 400–401), so a failing
writer — or, on the connection-level send path, an already-closed stream —
never produces an error. -/
theorem serializeQuery_reports_only_serializeStatement_errors
    (ser : Except String (List Int)) (wtr : GoWriter) (sh : ConnShared) (h : Int) :
    (∀ e, (serializeQuery ser wtr).2 = some e ↔ ser = Except.error e) ∧
    (∀ call, ser = Except.ok call → wtr.fails = true →
       serializeQuery ser wtr = (wtr, none)) ∧
    (serializeQueryW sh none h).2 = none := by
  refine ⟨?_, ?_, ?_⟩
  · intro e
    cases ser with
    | error e' => simp [serializeQuery]
    | ok call => simp [serializeQuery]
  · intro call hok hf
    subst hok
    simp [serializeQuery, ioCopy, hf]
  · by_cases hcl : sh.streamClosed = true <;> simp [serializeQueryW, hcl]

/-- Witness for C10: a writer whose stream rejects all writes still makes
`serializeQuery` return a nil error and an unchanged writer. -/
theorem serializeQuery_reports_only_serializeStatement_errors_witness :
    serializeQuery (Except.ok [5, 6]) { buf := [], fails := true }
      = ({ buf := [], fails := true }, none) :=
  (serializeQuery_reports_only_serializeStatement_errors (Except.ok [5, 6])
    { buf := [], fails := true } connFresh.shared 0).2.1 [5, 6] rfl rfl

/-- A world whose query future 0 and exec future 1 have been resolved: both
async calls were issued and their `Rows()`/`Result()` reads consumed the
delivered responses. -/
def wResolved : World :=
  runOps [Op.openC, Op.queryA 0 none, Op.execA 0 none,
          Op.readRows 0 { err := none, payload := 3 },
          Op.readResult 1 9]

/-- C2 counterexample: the claim requires a second resolution of an
already-resolved future to be detected and reported (a panic), never a
silent overwrite — but `VoltQueryResult.setRows` carries no check: applied
to the already-resolved future it silently replaces the stored rows
(payload 3 becomes 4) and returns a normal state. -/
theorem setRows_overwrites_resolved_future_silently :
    (lookupA wResolved.queryFuts 0).map (fun f => (f.active, f.rows))
      = some (false, some { err := none, payload := 3 }) ∧
    (lookupA (VoltQueryResult.setRows wResolved 0
        { err := none, payload := 4 }).queryFuts 0).map (fun f => (f.active, f.rows))
      = some (false, some { err := none, payload := 4 }) := by
  decide

/-- C2 (amended): only the exec-variant `setResult` detects a second
resolution, panicking with "Tried to set result on inactive exec result";
`setRows` on a query future and `setError` on either variant resolve an
already-inactive future silently, overwriting the stored outcome. -/
theorem only_exec_setResult_checks_double_resolution
    (w : World) (fidq fide : Nat) (fq : VoltQueryResult) (fe : VoltExecResult)
    (r : VoltRows) (res : Nat) (e : String)
    (hq : lookupA w.queryFuts fidq = some fq) (hqa : fq.active = false)
    (he : lookupA w.execFuts fide = some fe) (hea : fe.active = false) :
    VoltExecResult.setResult w fide res
      = SetR.panicked "Tried to set result on inactive exec result" ∧
    (lookupA (VoltQueryResult.setRows w fidq r).queryFuts fidq).map (fun f => f.rows)
      = some (some r) ∧
    (lookupA (VoltQueryResult.setError w fidq e).queryFuts fidq).map (fun f => f.err)
      = some (some e) ∧
    (lookupA (VoltExecResult.setError w fide e).execFuts fide).map (fun f => f.err)
      = some (some e) := by
  refine ⟨?_, ?_, ?_, ?_⟩
  · unfold VoltExecResult.setResult
    rw [he]
    simp [hea]
  · unfold VoltQueryResult.setRows
    rw [hq]
    simp only []
    rw [(connRemoveQuery_frame _ _ _).1]
    simp [lookupA_insertA_self]
  · unfold VoltQueryResult.setError
    rw [hq]
    simp only []
    rw [(connRemoveQuery_frame _ _ _).1]
    simp [lookupA_insertA_self]
  · unfold VoltExecResult.setError
    rw [he]
    simp only []
    rw [(connRemoveExec_frame _ _ _).2.1]
    simp [lookupA_insertA_self]

/-- Witness for the amended C2, at the concrete resolved futures of
`wResolved`. -/
theorem only_exec_setResult_checks_double_resolution_witness :
    VoltExecResult.setResult wResolved 1 7
      = SetR.panicked "Tried to set result on inactive exec result" ∧
    (lookupA (VoltQueryResult.setError wResolved 0 "again").queryFuts 0).map
        (fun f => f.err) = some (some "again") := by
  have h := only_exec_setResult_checks_double_resolution wResolved 0 1
    { conn := 0, han := 1, rows := some { err := none, payload := 3 },
      err := none, active := false }
    { conn := 0, han := 2, result := some 9, err := none, active := false }
    { err := none, payload := 4 } 7 "again"
    (by decide) (by decide) (by decide) (by decide)
  exact ⟨h.1, h.2.2.1⟩

/-- C6: reading a resolved future is repeatable and side-effect-free —
`Rows()` and `Result()` on an inactive future return exactly the stored
outcome, leave the state untouched, and do not depend on anything a channel
could deliver. -/
theorem resolved_future_reads_are_pure
    (w : World) (fidq fide : Nat) (fq : VoltQueryResult) (fe : VoltExecResult)
    (resp resp' : VoltRows) (r r' : Nat)
    (hq : lookupA w.queryFuts fidq = some fq) (hqa : fq.active = false)
    (he : lookupA w.execFuts fide = some fe) (hea : fe.active = false) :
    VoltQueryResult.Rows w fidq resp
      = (w, if fq.err.isSome then none else fq.rows, fq.err) ∧
    VoltQueryResult.Rows w fidq resp = VoltQueryResult.Rows w fidq resp' ∧
    VoltExecResult.Result w fide r = (w, fe.result, fe.err) ∧
    VoltExecResult.Result w fide r = VoltExecResult.Result w fide r' := by
  have hkq : ∀ rp : VoltRows, VoltQueryResult.Rows w fidq rp
      = (w, if fq.err.isSome then none else fq.rows, fq.err) := by
    intro rp
    unfold VoltQueryResult.Rows
    rw [hq]
    cases hfe : fq.err <;> simp [hqa, hfe]
  have hke : ∀ rr : Nat, VoltExecResult.Result w fide rr = (w, fe.result, fe.err) := by
    intro rr
    unfold VoltExecResult.Result
    rw [he]
    simp [hea]
  exact ⟨hkq resp, (hkq resp).trans (hkq resp').symm, hke r, (hke r).trans (hke r').symm⟩

/-- Witness for C6 at the resolved futures of `wResolved`. -/
theorem resolved_future_reads_are_pure_witness :
    VoltQueryResult.Rows wResolved 0 { err := some "late", payload := 99 }
      = (wResolved, some { err := none, payload := 3 }, none) ∧
    VoltExecResult.Result wResolved 1 55 = (wResolved, some 9, none) := by
  have h := resolved_future_reads_are_pure wResolved 0 1
    { conn := 0, han := 1, rows := some { err := none, payload := 3 },
      err := none, active := false }
    { conn := 0, han := 2, result := some 9, err := none, active := false }
    { err := some "late", payload := 99 } VoltRows.zero 55 0
    (by decide) (by decide) (by decide) (by decide)
  exact ⟨h.1, h.2.2.1⟩

/-- A delivered query response carrying a server-side error. -/
def badRows : VoltRows := { err := some "server error", payload := 0 }

/-- C7 counterexample: a synchronous `Query` whose request was written and
whose delivered response carries an error returns that response with a NIL
error (`return <-c, nil`, conn.go 149) — the claim says the error itself is
returned instead of a result. -/
theorem sync_query_returns_nil_error_despite_response_error :
    badRows.err = some "server error" ∧
    (VoltConn.Query wOpen 0 none badRows).2.1 = some badRows ∧
    (VoltConn.Query wOpen 0 none badRows).2.2 = none := by
  decide

/-- C7 (amended): a synchronous `Query` or `Exec` whose request was written
successfully returns the delivered response value with a nil error — an
error carried inside the response is not extracted by the call; the caller
must inspect the returned rows/result object. -/
theorem sync_calls_return_response_with_nil_error
    (w : World) (cid : Nat) (c : VoltConn) (resp : VoltRows) (r : Nat)
    (hc : lookupA w.conns cid = some c) (hopen : c.fields.isOpen = true) :
    (VoltConn.Query w cid none resp).2 = (some resp, none) ∧
    (VoltConn.Exec w cid none r).2 = (some r, none) := by
  constructor
  · unfold VoltConn.Query
    rw [hc]
    simp only [hopen]
    by_cases hcl : c.shared.streamClosed = true <;>
      simp [serializeQueryW, hcl]
  · unfold VoltConn.Exec
    rw [hc]
    simp only [hopen]
    by_cases hcl : c.shared.streamClosed = true <;>
      simp [serializeQueryW, hcl]

/-- Witness for the amended C7 on the freshly opened connection. -/
theorem sync_calls_return_response_with_nil_error_witness :
    (VoltConn.Query wOpen 0 none badRows).2 = (some badRows, none) ∧
    (VoltConn.Exec wOpen 0 none 42).2 = (some 42, none) :=
  sync_calls_return_response_with_nil_error wOpen 0 connFresh badRows 42
    (by decide) (by decide)

/-- C1 evaluated at the failing input: `Close()` runs on a by-value
receiver copy, so the heap connection still reports `isOpen = true`
afterwards, and a subsequent `ExecAsync` does NOT return the
connection-closed error — it allocates a fresh handle (the counter moves
from 0 to 1 and the ghost log records it) and registers a future. -/
theorem close_leaves_heap_connection_open :
    ((lookupA wOpen.conns 0).map (fun c => c.fields.isOpen) = some true) ∧
    ((lookupA (VoltConn.Close wOpen 0).1.conns 0).map (fun c => c.fields.isOpen)
       = some true) ∧
    ((VoltConn.ExecAsync (VoltConn.Close wOpen 0).1 0 none).2.2 = none) ∧
    ((VoltConn.ExecAsync (VoltConn.Close wOpen 0).1 0 none).2.1 = some 0) ∧
    ((VoltConn.ExecAsync (VoltConn.Close wOpen 0).1 0 none).1.qHandle = 1) ∧
    ((VoltConn.ExecAsync (VoltConn.Close wOpen 0).1 0 none).1.allocated = [1]) := by
  decide

/-- C8 evaluated at the failing input: at `Close()` time the listener loop
is still running (`listenerRunning = true`, its own WaitGroup copy at 1),
yet `closeBody` completes — the receiver copy's `nlwg` counter is 0, since
nothing ever `Add`s to the connection's WaitGroup and the listener holds a
by-value copy — and the stream ends up closed while the listener has not
terminated. -/
theorem close_completes_without_waiting_for_listener :
    ((lookupA wOpen.conns 0).map
        (fun c => (c.fields.nlwg, c.shared.listenerRunning, c.shared.listenerWg))
       = some (0, true, 1)) ∧
    ((lookupA wOpen.conns 0).map (fun c => (closeBody c.fields c.shared).isSome)
       = some true) ∧
    ((lookupA (VoltConn.Close wOpen 0).1.conns 0).map
        (fun c => (c.shared.streamClosed, c.shared.listenerRunning))
       = some (true, true)) := by
  decide

/-- C3 counterexample: `ExecAsync` on the open connection with a failing
`serializeStatement` returns the error synchronously and removes handle 1
from the listener's registry — but the future (id 0) REMAINS registered in
the connection's own `execs` map, still active: the claim that the handle
is afterwards registered in neither place is false. -/
theorem async_send_failure_leaks_conn_map_entry :
    ((VoltConn.ExecAsync wOpen 0 (some "serialize failed")).2.2
       = some "serialize failed") ∧
    ((VoltConn.ExecAsync wOpen 0 (some "serialize failed")).2.1 = none) ∧
    ((lookupA (VoltConn.ExecAsync wOpen 0 (some "serialize failed")).1.conns 0).map
        (fun c => (lookupA c.shared.execs 1, c.shared.nlExecs))
       = some (some 0, [])) ∧
    ((lookupA (VoltConn.ExecAsync wOpen 0 (some "serialize failed")).1.execFuts 0).map
        (fun f => f.active) = some true) := by
  decide

/-- C3 (amended): when `serializeQuery` fails — a `serializeStatement`
error is the only failure it ever reports, wire-write errors being
discarded — every entry point returns the error synchronously and removes
the fresh handle from the LISTENER's registry; the synchronous
`Exec`/`Query` leave the connection's outstanding maps untouched (they
never register there), but in `ExecAsync`/`QueryAsync` the freshly created
future remains registered, still active, in the connection's own
`execs`/`queries` map. -/
theorem send_failure_sync_error_and_partial_deregistration
    (w : World) (cid : Nat) (c : VoltConn) (e : String) (resp : VoltRows) (r : Nat)
    (hc : lookupA w.conns cid = some c) (hopen : c.fields.isOpen = true) :
    ((VoltConn.Exec w cid (some e) r).2.2 = some e ∧
     ∀ c', lookupA (VoltConn.Exec w cid (some e) r).1.conns cid = some c' →
       int64Wrap (w.qHandle + 1) ∉ c'.shared.nlExecs ∧
       c'.shared.execs = c.shared.execs) ∧
    ((VoltConn.Query w cid (some e) resp).2.2 = some e ∧
     ∀ c', lookupA (VoltConn.Query w cid (some e) resp).1.conns cid = some c' →
       int64Wrap (w.qHandle + 1) ∉ c'.shared.nlQueries ∧
       c'.shared.queries = c.shared.queries) ∧
    ((VoltConn.ExecAsync w cid (some e)).2.2 = some e ∧
     ∀ c', lookupA (VoltConn.ExecAsync w cid (some e)).1.conns cid = some c' →
       int64Wrap (w.qHandle + 1) ∉ c'.shared.nlExecs ∧
       lookupA c'.shared.execs (int64Wrap (w.qHandle + 1)) = some w.nextFid) ∧
    ((VoltConn.QueryAsync w cid (some e)).2.2 = some e ∧
     ∀ c', lookupA (VoltConn.QueryAsync w cid (some e)).1.conns cid = some c' →
       int64Wrap (w.qHandle + 1) ∉ c'.shared.nlQueries ∧
       lookupA c'.shared.queries (int64Wrap (w.qHandle + 1)) = some w.nextFid) ∧
    ((lookupA (VoltConn.ExecAsync w cid (some e)).1.execFuts w.nextFid).map
        (fun f => f.active) = some true) ∧
    ((lookupA (VoltConn.QueryAsync w cid (some e)).1.queryFuts w.nextFid).map
        (fun f => f.active) = some true) := by
  refine ⟨⟨?_, ?_⟩, ⟨?_, ?_⟩, ⟨?_, ?_⟩, ⟨?_, ?_⟩, ?_, ?_⟩
  · unfold VoltConn.Exec
    rw [hc]
    simp [hopen, serializeQueryW]
  · unfold VoltConn.Exec
    rw [hc]
    simp [hopen, serializeQueryW, updateConn, allocHandle, lookupA_insertA_self, List.mem_filter]
  · unfold VoltConn.Query
    rw [hc]
    simp [hopen, serializeQueryW]
  · unfold VoltConn.Query
    rw [hc]
    simp [hopen, serializeQueryW, updateConn, allocHandle, lookupA_insertA_self, List.mem_filter]
  · unfold VoltConn.ExecAsync
    rw [hc]
    simp [hopen, serializeQueryW]
  · unfold VoltConn.ExecAsync
    rw [hc]
    simp [hopen, serializeQueryW, updateConn, allocHandle, lookupA_insertA_self, List.mem_filter]
  · unfold VoltConn.QueryAsync
    rw [hc]
    simp [hopen, serializeQueryW]
  · unfold VoltConn.QueryAsync
    rw [hc]
    simp [hopen, serializeQueryW, updateConn, allocHandle, lookupA_insertA_self, List.mem_filter]
  · unfold VoltConn.ExecAsync
    rw [hc]
    simp [hopen, serializeQueryW, updateConn, allocHandle, lookupA_insertA_self]
  · unfold VoltConn.QueryAsync
    rw [hc]
    simp [hopen, serializeQueryW, updateConn, allocHandle, lookupA_insertA_self]

/-- Witness for the amended C3 on the freshly opened connection. -/
theorem send_failure_sync_error_and_partial_deregistration_witness :
    ((VoltConn.ExecAsync wOpen 0 (some "boom")).2.2 = some "boom") ∧
    ((lookupA (VoltConn.ExecAsync wOpen 0 (some "boom")).1.execFuts 0).map
        (fun f => f.active) = some true) := by
  have h := send_failure_sync_error_and_partial_deregistration wOpen 0 connFresh
    "boom" VoltRows.zero 0 (by decide) (by decide)
  exact ⟨h.2.2.1.1, h.2.2.2.2.1⟩

theorem fidQActive_setError_self (w : World) (fid : Nat) (e : String) :
    fidQActive (VoltQueryResult.setError w fid e) fid = false := by
  unfold VoltQueryResult.setError
  split
  · next hl =>
      unfold fidQActive
      rw [hl]
  · next f hl =>
      unfold fidQActive
      rw [(connRemoveQuery_frame _ _ _).1, lookupA_insertA_self]

theorem fidQActive_setRows_self (w : World) (fid : Nat) (r : VoltRows) :
    fidQActive (VoltQueryResult.setRows w fid r) fid = false := by
  unfold VoltQueryResult.setRows
  split
  · next hl =>
      unfold fidQActive
      rw [hl]
  · next f hl =>
      unfold fidQActive
      rw [(connRemoveQuery_frame _ _ _).1, lookupA_insertA_self]

theorem fidQActive_setError_mono (w : World) (fid' : Nat) (e : String) (fid : Nat)
    (h : fidQActive w fid = false) :
    fidQActive (VoltQueryResult.setError w fid' e) fid = false := by
  by_cases hf : fid = fid'
  · subst hf
    exact fidQActive_setError_self w fid e
  · unfold VoltQueryResult.setError
    split
    · exact h
    · unfold fidQActive
      rw [(connRemoveQuery_frame _ _ _).1, lookupA_insertA_ne _ _ _ _ hf]
      unfold fidQActive at h
      exact h

theorem fidQActive_setRows_mono (w : World) (fid' : Nat) (r : VoltRows) (fid : Nat)
    (h : fidQActive w fid = false) :
    fidQActive (VoltQueryResult.setRows w fid' r) fid = false := by
  by_cases hf : fid = fid'
  · subst hf
    exact fidQActive_setRows_self w fid r
  · unfold VoltQueryResult.setRows
    split
    · exact h
    · unfold fidQActive
      rw [(connRemoveQuery_frame _ _ _).1, lookupA_insertA_ne _ _ _ _ hf]
      unfold fidQActive at h
      exact h

theorem fidQActive_drainResolve_self (w : World) (fid : Nat) (msg : DrainMsg) :
    fidQActive (drainResolve w fid msg) fid = false := by
  cases msg with
  | closed => exact fidQActive_setError_self _ _ _
  | rows r =>
      cases hre : r.err with
      | some e =>
          simp only [drainResolve, hre]
          exact fidQActive_setError_self _ _ _
      | none =>
          simp only [drainResolve, hre]
          exact fidQActive_setRows_self _ _ _

theorem fidQActive_drainResolve_mono (w : World) (fid' : Nat) (msg : DrainMsg) (fid : Nat)
    (h : fidQActive w fid = false) :
    fidQActive (drainResolve w fid' msg) fid = false := by
  cases msg with
  | closed => exact fidQActive_setError_mono _ _ _ _ h
  | rows r =>
      cases hre : r.err with
      | some e =>
          simp only [drainResolve, hre]
          exact fidQActive_setError_mono _ _ _ _ h
      | none =>
          simp only [drainResolve, hre]
          exact fidQActive_setRows_mono _ _ _ _ h

theorem getLastD_eq_getD_last (l : List Nat) (h : 0 < l.length) :
    l.getLastD 0 = l.getD (l.length - 1) 0 := by
  rw [List.getLastD_eq_getLast?, List.getLast?_eq_getElem?,
      List.getElem?_eq_getElem (show l.length - 1 < l.length by omega),
      List.getD_eq_getElem l 0 (show l.length - 1 < l.length by omega)]
  rfl

theorem swapRemove_length (l : List Nat) (i : Nat) :
    (swapRemove l i).length = l.length - 1 := by
  simp [swapRemove]

theorem swapRemove_mem (l : List Nat) (i : Nat) (x : Nat) (hi : i < l.length)
    (hx : x ∈ l) : x = l.getD i 0 ∨ x ∈ swapRemove l i := by
  rcases List.mem_iff_getElem.mp hx with ⟨j, hj, hxj⟩
  by_cases hji : j = i
  · left
    rw [List.getD_eq_getElem l 0 hi]
    subst hji
    exact hxj.symm
  · right
    unfold swapRemove
    by_cases hlast : j = l.length - 1
    · have hil : i < l.length - 1 := by omega
      refine List.mem_iff_getElem.mpr ⟨i, ?_, ?_⟩
      · simpa using hil
      · rw [List.getElem_dropLast, List.getElem_set_self]
        rw [getLastD_eq_getD_last l (by omega),
            List.getD_eq_getElem l 0 (show l.length - 1 < l.length by omega)]
        subst hlast
        exact hxj
    · have hjl : j < l.length - 1 := by omega
      refine List.mem_iff_getElem.mpr ⟨j, ?_, ?_⟩
      · simpa using hjl
      · rw [List.getElem_dropLast, List.getElem_set_ne (fun hh => hji hh.symm)]
        exact hxj

theorem drainLoop_keeps_inactive (sched : List (Nat × DrainMsg)) (pending : List Nat)
    (w : World) (fid : Nat) (h : fidQActive w fid = false) :
    fidQActive (drainLoop w pending sched).1 fid = false := by
  induction sched generalizing pending w with
  | nil => cases pending <;> simp [drainLoop, h]
  | cons s rest ih =>
      cases pending with
      | nil => simp [drainLoop, h]
      | cons p0 ps =>
          rcases s with ⟨choice, msg⟩
          simp only [drainLoop]
          exact ih _ _ (fidQActive_drainResolve_mono _ _ _ _ h)

theorem drainLoop_count (sched : List (Nat × DrainMsg)) (pending : List Nat) (w : World)
    (h : pending.length ≤ sched.length) :
    (drainLoop w pending sched).2 = pending.length := by
  induction sched generalizing pending w with
  | nil =>
      cases pending with
      | nil => simp [drainLoop]
      | cons p0 ps => simp at h
  | cons s rest ih =>
      cases pending with
      | nil => simp [drainLoop]
      | cons p0 ps =>
          rcases s with ⟨choice, msg⟩
          simp only [drainLoop]
          have hlen : (swapRemove (p0 :: ps) (choice % (p0 :: ps).length)).length
              ≤ rest.length := by
            rw [swapRemove_length]
            simp only [List.length_cons] at h ⊢
            omega
          rw [ih _ _ hlen, swapRemove_length]
          simp only [List.length_cons]
          omega

theorem drainLoop_resolves (sched : List (Nat × DrainMsg)) (pending : List Nat) (w : World)
    (h : pending.length ≤ sched.length) (fid : Nat) (hm : fid ∈ pending) :
    fidQActive (drainLoop w pending sched).1 fid = false := by
  induction sched generalizing pending w with
  | nil =>
      cases pending with
      | nil => simp at hm
      | cons p0 ps => simp at h
  | cons s rest ih =>
      cases pending with
      | nil => simp at hm
      | cons p0 ps =>
          rcases s with ⟨choice, msg⟩
          simp only [drainLoop]
          have hi : choice % (p0 :: ps).length < (p0 :: ps).length :=
            Nat.mod_lt _ (by simp)
          rcases swapRemove_mem (p0 :: ps) (choice % (p0 :: ps).length) fid hi hm with
            hEq | hIn
          · rw [hEq]
            exact drainLoop_keeps_inactive _ _ _ _ (fidQActive_drainResolve_self _ _ _)
          · have hlen : (swapRemove (p0 :: ps) (choice % (p0 :: ps).length)).length
                ≤ rest.length := by
              rw [swapRemove_length]
              simp only [List.length_cons] at h ⊢
              omega
            exact ih _ _ hlen hIn

/-- C5: `Drain` waits only on the futures of the collection that are active
at entry; under ANY completion order (any schedule) long enough to resolve
them, it returns with every future of the collection in a non-active state,
performing exactly one receive per initially-active entry — so none for a
future already resolved at entry — and a collection whose futures are all
already resolved drains immediately: zero receives, state untouched. -/
theorem drain_resolves_every_future (w : World) (vqrs : List Nat)
    (sched : List (Nat × DrainMsg))
    (h : (vqrs.filter (fun fid => fidQActive w fid)).length ≤ sched.length) :
    (∀ fid ∈ vqrs, fidQActive (VoltConn.Drain w vqrs sched).1 fid = false) ∧
    (VoltConn.Drain w vqrs sched).2
      = (vqrs.filter (fun fid => fidQActive w fid)).length ∧
    (vqrs.filter (fun fid => fidQActive w fid) = [] →
      VoltConn.Drain w vqrs sched = (w, 0)) := by
  refine ⟨?_, ?_, ?_⟩
  · intro fid hm
    by_cases hact : fidQActive w fid = true
    · have hmem : fid ∈ vqrs.filter (fun fid => fidQActive w fid) := by
        simp [List.mem_filter, hm, hact]
      exact drainLoop_resolves _ _ _ h _ hmem
    · have hfalse : fidQActive w fid = false := by simpa using hact
      exact drainLoop_keeps_inactive _ _ _ _ hfalse
  · exact drainLoop_count _ _ _ h
  · intro hemp
    unfold VoltConn.Drain
    rw [hemp]
    cases sched <;> simp [drainLoop]

/-- A world with query future 0 still active and query future 1 resolved. -/
def wDrain : World :=
  runOps [Op.openC, Op.queryA 0 none, Op.queryA 0 none,
          Op.readRows 1 { err := none, payload := 8 }]

/-- Witness for C5: draining an active plus an already-resolved future with
a one-entry schedule resolves both with exactly one receive, and the
all-resolved sub-collection drains immediately. -/
theorem drain_resolves_every_future_witness :
    fidQActive (VoltConn.Drain wDrain [0, 1]
        [(0, DrainMsg.rows { err := none, payload := 5 })]).1 0 = false ∧
    (VoltConn.Drain wDrain [0, 1]
        [(0, DrainMsg.rows { err := none, payload := 5 })]).2 = 1 ∧
    VoltConn.Drain wDrain [1] [] = (wDrain, 0) := by
  have h1 := drain_resolves_every_future wDrain [0, 1]
      [(0, DrainMsg.rows { err := none, payload := 5 })] (by decide)
  have h2 := drain_resolves_every_future wDrain [1] [] (by decide)
  refine ⟨h1.1 0 (by decide), ?_, h2.2.2 (by decide)⟩
  rw [h1.2.1]
  decide

/-- The registry invariant behind C9: future ids are allocated below
`nextFid`, and every entry of every connection's `queries`/`execs` map
points to an existing future that belongs to that connection under that
handle and is still active. -/
def InvMaps (w : World) : Prop :=
  (∀ p ∈ w.queryFuts, p.1 < w.nextFid) ∧
  (∀ p ∈ w.execFuts, p.1 < w.nextFid) ∧
  (∀ cid c h fid, lookupA w.conns cid = some c → (h, fid) ∈ c.shared.queries →
     ∃ f, lookupA w.queryFuts fid = some f ∧ f.conn = cid ∧ f.han = h ∧ f.active = true) ∧
  (∀ cid c h fid, lookupA w.conns cid = some c → (h, fid) ∈ c.shared.execs →
     ∃ f, lookupA w.execFuts fid = some f ∧ f.conn = cid ∧ f.han = h ∧ f.active = true)

theorem InvMaps_resolveQ (w : World) (fid : Nat) (f f' : VoltQueryResult)
    (hl : lookupA w.queryFuts fid = some f)
    (hI : InvMaps w) :
    InvMaps (connRemoveQuery { w with queryFuts := insertA w.queryFuts fid f' }
      f.conn f.han) := by
  obtain ⟨hfq, hfe, hwq, hwe⟩ := hI
  have hfresh : ∀ p ∈ insertA w.queryFuts fid f', p.1 < w.nextFid := by
    intro p hp
    rcases mem_insertA _ _ _ _ hp with hpe | hpm
    · subst hpe
      exact hfq (fid, f) (lookupA_mem _ _ _ hl)
    · exact hfq p hpm
  unfold connRemoveQuery updateConn
  split
  · next hcc =>
      refine ⟨hfresh, hfe, ?_, ?_⟩
      · intro cid c h2 fid2 hcid hmem
        rcases hwq cid c h2 fid2 hcid hmem with ⟨f0, hf0, hconn, hhan, hact⟩
        by_cases hff : fid2 = fid
        · subst hff
          rw [hl] at hf0
          injection hf0 with hf0
          subst hf0
          rw [← hconn] at hcid
          rw [hcid] at hcc
          cases hcc
        · refine ⟨f0, ?_, hconn, hhan, hact⟩
          rw [lookupA_insertA_ne _ _ _ _ hff]
          exact hf0
      · intro cid c h2 fid2 hcid hmem
        exact hwe cid c h2 fid2 hcid hmem
  · next c0 hcc =>
      refine ⟨hfresh, hfe, ?_, ?_⟩
      · intro cid c h2 fid2 hcid hmem
        by_cases hcf : cid = f.conn
        · subst hcf
          rw [lookupA_insertA_self] at hcid
          injection hcid with hcid
          subst hcid
          have hmem0 := (mem_eraseA c0.shared.queries f.han (h2, fid2)).mp hmem
          rcases hwq f.conn c0 h2 fid2 hcc hmem0.1 with ⟨f0, hf0, hconn, hhan, hact⟩
          by_cases hff : fid2 = fid
          · subst hff
            rw [hl] at hf0
            injection hf0 with hf0
            subst hf0
            exact absurd hhan.symm (by simpa using hmem0.2)
          · refine ⟨f0, ?_, hconn, hhan, hact⟩
            rw [lookupA_insertA_ne _ _ _ _ hff]
            exact hf0
        · rw [lookupA_insertA_ne _ _ _ _ hcf] at hcid
          rcases hwq cid c h2 fid2 hcid hmem with ⟨f0, hf0, hconn, hhan, hact⟩
          by_cases hff : fid2 = fid
          · subst hff
            rw [hl] at hf0
            injection hf0 with hf0
            subst hf0
            exact absurd hconn.symm hcf
          · refine ⟨f0, ?_, hconn, hhan, hact⟩
            rw [lookupA_insertA_ne _ _ _ _ hff]
            exact hf0
      · intro cid c h2 fid2 hcid hmem
        by_cases hcf : cid = f.conn
        · subst hcf
          rw [lookupA_insertA_self] at hcid
          injection hcid with hcid
          subst hcid
          exact hwe f.conn c0 h2 fid2 hcc hmem
        · rw [lookupA_insertA_ne _ _ _ _ hcf] at hcid
          exact hwe cid c h2 fid2 hcid hmem

theorem InvMaps_resolveE (w : World) (fid : Nat) (f f' : VoltExecResult)
    (hl : lookupA w.execFuts fid = some f)
    (hI : InvMaps w) :
    InvMaps (connRemoveExec { w with execFuts := insertA w.execFuts fid f' }
      f.conn f.han) := by
  obtain ⟨hfq, hfe, hwq, hwe⟩ := hI
  have hfresh : ∀ p ∈ insertA w.execFuts fid f', p.1 < w.nextFid := by
    intro p hp
    rcases mem_insertA _ _ _ _ hp with hpe | hpm
    · subst hpe
      exact hfe (fid, f) (lookupA_mem _ _ _ hl)
    · exact hfe p hpm
  unfold connRemoveExec updateConn
  split
  · next hcc =>
      refine ⟨hfq, hfresh, ?_, ?_⟩
      · intro cid c h2 fid2 hcid hmem
        exact hwq cid c h2 fid2 hcid hmem
      · intro cid c h2 fid2 hcid hmem
        rcases hwe cid c h2 fid2 hcid hmem with ⟨f0, hf0, hconn, hhan, hact⟩
        by_cases hff : fid2 = fid
        · subst hff
          rw [hl] at hf0
          injection hf0 with hf0
          subst hf0
          rw [← hconn] at hcid
          rw [hcid] at hcc
          cases hcc
        · refine ⟨f0, ?_, hconn, hhan, hact⟩
          rw [lookupA_insertA_ne _ _ _ _ hff]
          exact hf0
  · next c0 hcc =>
      refine ⟨hfq, hfresh, ?_, ?_⟩
      · intro cid c h2 fid2 hcid hmem
        by_cases hcf : cid = f.conn
        · subst hcf
          rw [lookupA_insertA_self] at hcid
          injection hcid with hcid
          subst hcid
          exact hwq f.conn c0 h2 fid2 hcc hmem
        · rw [lookupA_insertA_ne _ _ _ _ hcf] at hcid
          exact hwq cid c h2 fid2 hcid hmem
      · intro cid c h2 fid2 hcid hmem
        by_cases hcf : cid = f.conn
        · subst hcf
          rw [lookupA_insertA_self] at hcid
          injection hcid with hcid
          subst hcid
          have hmem0 := (mem_eraseA c0.shared.execs f.han (h2, fid2)).mp hmem
          rcases hwe f.conn c0 h2 fid2 hcc hmem0.1 with ⟨f0, hf0, hconn, hhan, hact⟩
          by_cases hff : fid2 = fid
          · subst hff
            rw [hl] at hf0
            injection hf0 with hf0
            subst hf0
            exact absurd hhan.symm (by simpa using hmem0.2)
          · refine ⟨f0, ?_, hconn, hhan, hact⟩
            rw [lookupA_insertA_ne _ _ _ _ hff]
            exact hf0
        · rw [lookupA_insertA_ne _ _ _ _ hcf] at hcid
          rcases hwe cid c h2 fid2 hcid hmem with ⟨f0, hf0, hconn, hhan, hact⟩
          by_cases hff : fid2 = fid
          · subst hff
            rw [hl] at hf0
            injection hf0 with hf0
            subst hf0
            exact absurd hconn.symm hcf
          · refine ⟨f0, ?_, hconn, hhan, hact⟩
            rw [lookupA_insertA_ne _ _ _ _ hff]
            exact hf0

theorem InvMaps_setErrorQ (w : World) (fid : Nat) (e : String) (hI : InvMaps w) :
    InvMaps (VoltQueryResult.setError w fid e) := by
  unfold VoltQueryResult.setError
  split
  · exact hI
  · next f hl => exact InvMaps_resolveQ w fid f _ hl hI

theorem InvMaps_setRowsQ (w : World) (fid : Nat) (r : VoltRows) (hI : InvMaps w) :
    InvMaps (VoltQueryResult.setRows w fid r) := by
  unfold VoltQueryResult.setRows
  split
  · exact hI
  · next f hl => exact InvMaps_resolveQ w fid f _ hl hI

theorem InvMaps_setErrorE (w : World) (fid : Nat) (e : String) (hI : InvMaps w) :
    InvMaps (VoltExecResult.setError w fid e) := by
  unfold VoltExecResult.setError
  split
  · exact hI
  · next f hl => exact InvMaps_resolveE w fid f _ hl hI

theorem InvMaps_setResultE (w : World) (fid : Nat) (r : Nat) (w' : World)
    (hok : VoltExecResult.setResult w fid r = SetR.ok w') (hI : InvMaps w) :
    InvMaps w' := by
  unfold VoltExecResult.setResult at hok
  revert hok
  split
  · intro hok
    cases hok
    exact hI
  · next f hl =>
      split
      · intro hok
        cases hok
      · intro hok
        cases hok
        exact InvMaps_resolveE w fid f _ hl hI

theorem InvMaps_updateConn_sameMaps (w : World) (cid : Nat) (c0 c1 : VoltConn)
    (hcc : lookupA w.conns cid = some c0)
    (hq : c1.shared.queries = c0.shared.queries)
    (he : c1.shared.execs = c0.shared.execs)
    (hI : InvMaps w) : InvMaps (updateConn w cid c1) := by
  obtain ⟨hfq, hfe, hwq, hwe⟩ := hI
  refine ⟨hfq, hfe, ?_, ?_⟩
  · intro cid' c h2 fid2 hcid hmem
    by_cases hcf : cid' = cid
    · subst hcf
      unfold updateConn at hcid
      rw [show lookupA ({ w with conns := insertA w.conns cid' c1 } : World).conns cid'
          = some c1 from lookupA_insertA_self _ _ _] at hcid
      injection hcid with hcid
      subst hcid
      rw [hq] at hmem
      exact hwq cid' c0 h2 fid2 hcc hmem
    · unfold updateConn at hcid
      rw [show lookupA ({ w with conns := insertA w.conns cid c1 } : World).conns cid'
          = lookupA w.conns cid' from lookupA_insertA_ne _ _ _ _ hcf] at hcid
      exact hwq cid' c h2 fid2 hcid hmem
  · intro cid' c h2 fid2 hcid hmem
    by_cases hcf : cid' = cid
    · subst hcf
      unfold updateConn at hcid
      rw [show lookupA ({ w with conns := insertA w.conns cid' c1 } : World).conns cid'
          = some c1 from lookupA_insertA_self _ _ _] at hcid
      injection hcid with hcid
      subst hcid
      rw [he] at hmem
      exact hwe cid' c0 h2 fid2 hcc hmem
    · unfold updateConn at hcid
      rw [show lookupA ({ w with conns := insertA w.conns cid c1 } : World).conns cid'
          = lookupA w.conns cid' from lookupA_insertA_ne _ _ _ _ hcf] at hcid
      exact hwe cid' c h2 fid2 hcid hmem

theorem InvMaps_nlRemoveQuery (w : World) (cid : Nat) (h : Int) (hI : InvMaps w) :
    InvMaps (nlRemoveQuery w cid h) := by
  unfold nlRemoveQuery
  split
  · exact hI
  · next c hcc => exact InvMaps_updateConn_sameMaps w cid c _ hcc rfl rfl hI

theorem InvMaps_nlRemoveExec (w : World) (cid : Nat) (h : Int) (hI : InvMaps w) :
    InvMaps (nlRemoveExec w cid h) := by
  unfold nlRemoveExec
  split
  · exact hI
  · next c hcc => exact InvMaps_updateConn_sameMaps w cid c _ hcc rfl rfl hI

theorem InvMaps_rowsRead (w : World) (fid : Nat) (resp : VoltRows) (hI : InvMaps w) :
    InvMaps (VoltQueryResult.Rows w fid resp).1 := by
  unfold VoltQueryResult.Rows
  split
  · exact hI
  · next f hl =>
      split
      · split <;> exact hI
      · split
        · exact InvMaps_setErrorQ _ _ _ (InvMaps_nlRemoveQuery _ _ _ hI)
        · exact InvMaps_setRowsQ _ _ _ (InvMaps_nlRemoveQuery _ _ _ hI)

theorem InvMaps_resultRead (w : World) (fid : Nat) (resp : Nat) (hI : InvMaps w) :
    InvMaps (VoltExecResult.Result w fid resp).1 := by
  unfold VoltExecResult.Result
  split
  · exact hI
  · next f hl =>
      split
      · exact hI
      · simp only []
        split
        · next w' hok => exact InvMaps_setResultE _ _ _ _ hok (InvMaps_nlRemoveExec _ _ _ hI)
        · exact InvMaps_nlRemoveExec _ _ _ hI

theorem InvMaps_drainResolve (w : World) (fid : Nat) (msg : DrainMsg) (hI : InvMaps w) :
    InvMaps (drainResolve w fid msg) := by
  cases msg with
  | closed => exact InvMaps_setErrorQ _ _ _ hI
  | rows r =>
      cases hre : r.err with
      | some e =>
          simp only [drainResolve, hre]
          exact InvMaps_setErrorQ _ _ _ hI
      | none =>
          simp only [drainResolve, hre]
          exact InvMaps_setRowsQ _ _ _ hI

theorem InvMaps_drainLoop (sched : List (Nat × DrainMsg)) (pending : List Nat)
    (w : World) (hI : InvMaps w) : InvMaps (drainLoop w pending sched).1 := by
  induction sched generalizing pending w with
  | nil => cases pending <;> simpa [drainLoop]
  | cons s rest ih =>
      cases pending with
      | nil => simpa [drainLoop]
      | cons p0 ps =>
          rcases s with ⟨choice, msg⟩
          simp only [drainLoop]
          exact ih _ _ (InvMaps_drainResolve _ _ _ hI)

theorem serializeQueryW_maps (sh : ConnShared) (ser : Option String) (h : Int) :
    (serializeQueryW sh ser h).1.queries = sh.queries ∧
    (serializeQueryW sh ser h).1.execs = sh.execs := by
  unfold serializeQueryW
  cases ser with
  | some e => exact ⟨rfl, rfl⟩
  | none => by_cases hcl : sh.streamClosed = true <;> simp [hcl]

theorem InvMaps_insertEmptyConn (w : World) (cid : Nat) (c1 : VoltConn)
    (hq : c1.shared.queries = []) (he : c1.shared.execs = [])
    (hI : InvMaps w) :
    InvMaps { w with conns := insertA w.conns cid c1, nextCid := cid + 1 } := by
  obtain ⟨hfq, hfe, hwq, hwe⟩ := hI
  refine ⟨hfq, hfe, ?_, ?_⟩
  · intro cid' c h2 fid2 hcid hmem
    by_cases hcf : cid' = cid
    · subst hcf
      rw [lookupA_insertA_self] at hcid
      injection hcid with hcid
      subst hcid
      rw [hq] at hmem
      simp at hmem
    · rw [lookupA_insertA_ne _ _ _ _ hcf] at hcid
      exact hwq cid' c h2 fid2 hcid hmem
  · intro cid' c h2 fid2 hcid hmem
    by_cases hcf : cid' = cid
    · subst hcf
      rw [lookupA_insertA_self] at hcid
      injection hcid with hcid
      subst hcid
      rw [he] at hmem
      simp at hmem
    · rw [lookupA_insertA_ne _ _ _ _ hcf] at hcid
      exact hwe cid' c h2 fid2 hcid hmem

theorem InvMaps_open (w : World) (hI : InvMaps w) : InvMaps (newVoltConn w).1 :=
  InvMaps_insertEmptyConn w w.nextCid _ rfl rfl hI

theorem InvMaps_close (w : World) (cid : Nat) (hI : InvMaps w) :
    InvMaps (VoltConn.Close w cid).1 := by
  unfold VoltConn.Close
  split
  · exact hI
  · next c hcc =>
      split
      · exact hI
      · next x hbody =>
          have hsh : x.2.1.queries = c.shared.queries ∧ x.2.1.execs = c.shared.execs := by
            unfold closeBody at hbody
            split at hbody
            · cases hbody
              split <;> exact ⟨rfl, rfl⟩
            · cases hbody
          exact InvMaps_updateConn_sameMaps w cid c _ hcc hsh.1 hsh.2 hI

theorem InvMaps_exit (w : World) (cid : Nat) (hI : InvMaps w) :
    InvMaps (listenerExit w cid) := by
  unfold listenerExit
  split
  · exact hI
  · next c hcc => exact InvMaps_updateConn_sameMaps w cid c _ hcc rfl rfl hI

theorem InvMaps_execS (w : World) (cid : Nat) (ser : Option String) (resp : Nat)
    (hI : InvMaps w) : InvMaps (VoltConn.Exec w cid ser resp).1 := by
  unfold VoltConn.Exec
  split
  · exact hI
  · next c hcc =>
      split
      · exact hI
      · simp only []
        split
        · exact InvMaps_updateConn_sameMaps _ _ _ _ hcc
            ((serializeQueryW_maps _ _ _).1) ((serializeQueryW_maps _ _ _).2) hI
        · exact InvMaps_updateConn_sameMaps _ _ _ _ hcc
            ((serializeQueryW_maps _ _ _).1) ((serializeQueryW_maps _ _ _).2) hI

theorem InvMaps_queryS (w : World) (cid : Nat) (ser : Option String) (resp : VoltRows)
    (hI : InvMaps w) : InvMaps (VoltConn.Query w cid ser resp).1 := by
  unfold VoltConn.Query
  split
  · exact hI
  · next c hcc =>
      split
      · exact hI
      · simp only []
        split
        · exact InvMaps_updateConn_sameMaps _ _ _ _ hcc
            ((serializeQueryW_maps _ _ _).1) ((serializeQueryW_maps _ _ _).2) hI
        · exact InvMaps_updateConn_sameMaps _ _ _ _ hcc
            ((serializeQueryW_maps _ _ _).1) ((serializeQueryW_maps _ _ _).2) hI

theorem InvMaps_registerE (w : World) (cid : Nat) (c : VoltConn) (h : Int)
    (sh1 : ConnShared) (qh : Int) (al : List Int)
    (hsq : sh1.queries = c.shared.queries)
    (hse : sh1.execs = insertA c.shared.execs h w.nextFid)
    (hcc : lookupA w.conns cid = some c) (hI : InvMaps w) :
    InvMaps { w with qHandle := qh, allocated := al, conns := insertA w.conns cid { c with shared := sh1 }, execFuts := insertA w.execFuts w.nextFid { conn := cid, han := h, result := none, err := none, active := true }, nextFid := w.nextFid + 1 } := by
  obtain ⟨hfq, hfe, hwq, hwe⟩ := hI
  refine ⟨?_, ?_, ?_, ?_⟩
  · intro p hp
    have hlt : p.1 < w.nextFid := hfq p hp
    show p.1 < w.nextFid + 1
    omega
  · intro p hp
    rcases mem_insertA _ _ _ _ hp with hpe | hpm
    · rw [hpe]
      show w.nextFid < w.nextFid + 1
      omega
    · have hlt : p.1 < w.nextFid := hfe p hpm
      show p.1 < w.nextFid + 1
      omega
  · intro cid' c' h2 fid2 hcid hmem
    by_cases hcf : cid' = cid
    · subst hcf
      rw [lookupA_insertA_self] at hcid
      injection hcid with hcid
      subst hcid
      have hmem' : (h2, fid2) ∈ sh1.queries := hmem
      rw [hsq] at hmem'
      exact hwq cid' c h2 fid2 hcc hmem'
    · rw [lookupA_insertA_ne _ _ _ _ hcf] at hcid
      exact hwq cid' c' h2 fid2 hcid hmem
  · intro cid' c' h2 fid2 hcid hmem
    by_cases hcf : cid' = cid
    · subst hcf
      rw [lookupA_insertA_self] at hcid
      injection hcid with hcid
      subst hcid
      have hmem' : (h2, fid2) ∈ sh1.execs := hmem
      rw [hse] at hmem'
      rcases mem_insertA _ _ _ _ hmem' with hpe | hpm
      · rw [Prod.mk.injEq] at hpe
        obtain ⟨hph, hpf⟩ := hpe
        subst hph
        subst hpf
        refine ⟨_, lookupA_insertA_self _ _ _, rfl, rfl, rfl⟩
      · rcases hwe cid' c h2 fid2 hcc hpm with ⟨f0, hf0, hconn, hhan, hact⟩
        have hne : fid2 ≠ w.nextFid := by
          intro hx
          have hlt : fid2 < w.nextFid := hfe (fid2, f0) (lookupA_mem _ _ _ hf0)
          omega
        refine ⟨f0, ?_, hconn, hhan, hact⟩
        rw [lookupA_insertA_ne _ _ _ _ hne]
        exact hf0
    · rw [lookupA_insertA_ne _ _ _ _ hcf] at hcid
      rcases hwe cid' c' h2 fid2 hcid hmem with ⟨f0, hf0, hconn, hhan, hact⟩
      have hne : fid2 ≠ w.nextFid := by
        intro hx
        have hlt : fid2 < w.nextFid := hfe (fid2, f0) (lookupA_mem _ _ _ hf0)
        omega
      refine ⟨f0, ?_, hconn, hhan, hact⟩
      rw [lookupA_insertA_ne _ _ _ _ hne]
      exact hf0

theorem InvMaps_registerQ (w : World) (cid : Nat) (c : VoltConn) (h : Int)
    (sh1 : ConnShared) (qh : Int) (al : List Int)
    (hsq : sh1.queries = insertA c.shared.queries h w.nextFid)
    (hse : sh1.execs = c.shared.execs)
    (hcc : lookupA w.conns cid = some c) (hI : InvMaps w) :
    InvMaps { w with qHandle := qh, allocated := al, conns := insertA w.conns cid { c with shared := sh1 }, queryFuts := insertA w.queryFuts w.nextFid { conn := cid, han := h, rows := none, err := none, active := true }, nextFid := w.nextFid + 1 } := by
  obtain ⟨hfq, hfe, hwq, hwe⟩ := hI
  refine ⟨?_, ?_, ?_, ?_⟩
  · intro p hp
    rcases mem_insertA _ _ _ _ hp with hpe | hpm
    · rw [hpe]
      show w.nextFid < w.nextFid + 1
      omega
    · have hlt : p.1 < w.nextFid := hfq p hpm
      show p.1 < w.nextFid + 1
      omega
  · intro p hp
    have hlt : p.1 < w.nextFid := hfe p hp
    show p.1 < w.nextFid + 1
    omega
  · intro cid' c' h2 fid2 hcid hmem
    by_cases hcf : cid' = cid
    · subst hcf
      rw [lookupA_insertA_self] at hcid
      injection hcid with hcid
      subst hcid
      have hmem' : (h2, fid2) ∈ sh1.queries := hmem
      rw [hsq] at hmem'
      rcases mem_insertA _ _ _ _ hmem' with hpe | hpm
      · rw [Prod.mk.injEq] at hpe
        obtain ⟨hph, hpf⟩ := hpe
        subst hph
        subst hpf
        refine ⟨_, lookupA_insertA_self _ _ _, rfl, rfl, rfl⟩
      · rcases hwq cid' c h2 fid2 hcc hpm with ⟨f0, hf0, hconn, hhan, hact⟩
        have hne : fid2 ≠ w.nextFid := by
          intro hx
          have hlt : fid2 < w.nextFid := hfq (fid2, f0) (lookupA_mem _ _ _ hf0)
          omega
        refine ⟨f0, ?_, hconn, hhan, hact⟩
        rw [lookupA_insertA_ne _ _ _ _ hne]
        exact hf0
    · rw [lookupA_insertA_ne _ _ _ _ hcf] at hcid
      rcases hwq cid' c' h2 fid2 hcid hmem with ⟨f0, hf0, hconn, hhan, hact⟩
      have hne : fid2 ≠ w.nextFid := by
        intro hx
        have hlt : fid2 < w.nextFid := hfq (fid2, f0) (lookupA_mem _ _ _ hf0)
        omega
      refine ⟨f0, ?_, hconn, hhan, hact⟩
      rw [lookupA_insertA_ne _ _ _ _ hne]
      exact hf0
  · intro cid' c' h2 fid2 hcid hmem
    by_cases hcf : cid' = cid
    · subst hcf
      rw [lookupA_insertA_self] at hcid
      injection hcid with hcid
      subst hcid
      have hmem' : (h2, fid2) ∈ sh1.execs := hmem
      rw [hse] at hmem'
      exact hwe cid' c h2 fid2 hcc hmem'
    · rw [lookupA_insertA_ne _ _ _ _ hcf] at hcid
      exact hwe cid' c' h2 fid2 hcid hmem

theorem InvMaps_execA (w : World) (cid : Nat) (ser : Option String) (hI : InvMaps w) :
    InvMaps (VoltConn.ExecAsync w cid ser).1 := by
  unfold VoltConn.ExecAsync
  split
  · exact hI
  · next c hcc =>
      split
      · exact hI
      · simp only []
        split
        · exact InvMaps_registerE w cid c _ _ _ _
            ((serializeQueryW_maps _ _ _).1) ((serializeQueryW_maps _ _ _).2) hcc hI
        · exact InvMaps_registerE w cid c _ _ _ _
            ((serializeQueryW_maps _ _ _).1) ((serializeQueryW_maps _ _ _).2) hcc hI

theorem InvMaps_queryA (w : World) (cid : Nat) (ser : Option String) (hI : InvMaps w) :
    InvMaps (VoltConn.QueryAsync w cid ser).1 := by
  unfold VoltConn.QueryAsync
  split
  · exact hI
  · next c hcc =>
      split
      · exact hI
      · simp only []
        split
        · exact InvMaps_registerQ w cid c _ _ _ _
            ((serializeQueryW_maps _ _ _).1) ((serializeQueryW_maps _ _ _).2) hcc hI
        · exact InvMaps_registerQ w cid c _ _ _ _
            ((serializeQueryW_maps _ _ _).1) ((serializeQueryW_maps _ _ _).2) hcc hI

theorem InvMaps_step (w : World) (o : Op) (hI : InvMaps w) : InvMaps (stepOp w o) := by
  cases o with
  | openC => exact InvMaps_open w hI
  | closeC cid => exact InvMaps_close w cid hI
  | exitC cid => exact InvMaps_exit w cid hI
  | execS cid ser resp => exact InvMaps_execS w cid ser resp hI
  | execA cid ser => exact InvMaps_execA w cid ser hI
  | queryS cid ser resp => exact InvMaps_queryS w cid ser resp hI
  | queryA cid ser => exact InvMaps_queryA w cid ser hI
  | readRows fid resp => exact InvMaps_rowsRead w fid resp hI
  | readResult fid resp => exact InvMaps_resultRead w fid resp hI
  | drainC vqrs sched => exact InvMaps_drainLoop sched _ w hI

theorem InvMaps_run (ops : List Op) (w : World) (hI : InvMaps w) :
    InvMaps (run w ops) := by
  induction ops generalizing w with
  | nil => exact hI
  | cons o os ih => exact ih _ (InvMaps_step w o hI)

theorem InvMaps_init : InvMaps World.init := by
  refine ⟨?_, ?_, ?_, ?_⟩
  · intro p hp
    simp [World.init] at hp
  · intro p hp
    simp [World.init] at hp
  · intro cid c h2 fid2 hcid hmem
    simp [World.init, lookupA] at hcid
  · intro cid c h2 fid2 hcid hmem
    simp [World.init, lookupA] at hcid

theorem connRemoveQuery_deletes (w : World) (cid : Nat) (h : Int) (c' : VoltConn)
    (hc : lookupA (connRemoveQuery w cid h).conns cid = some c') :
    lookupA c'.shared.queries h = none := by
  unfold connRemoveQuery updateConn at hc
  revert hc
  split
  · next hcc =>
      intro hc
      rw [hcc] at hc
      cases hc
  · next c0 hcc =>
      intro hc
      rw [lookupA_insertA_self] at hc
      injection hc with hc
      subst hc
      show lookupA (eraseA c0.shared.queries h) h = none
      rw [lookupA_eraseA]
      simp

theorem connRemoveExec_deletes (w : World) (cid : Nat) (h : Int) (c' : VoltConn)
    (hc : lookupA (connRemoveExec w cid h).conns cid = some c') :
    lookupA c'.shared.execs h = none := by
  unfold connRemoveExec updateConn at hc
  revert hc
  split
  · next hcc =>
      intro hc
      rw [hcc] at hc
      cases hc
  · next c0 hcc =>
      intro hc
      rw [lookupA_insertA_self] at hc
      injection hc with hc
      subst hc
      show lookupA (eraseA c0.shared.execs h) h = none
      rw [lookupA_eraseA]
      simp

theorem setErrorQ_deletes (w : World) (fid : Nat) (e : String) (f : VoltQueryResult)
    (c' : VoltConn) (hl : lookupA w.queryFuts fid = some f)
    (hc : lookupA (VoltQueryResult.setError w fid e).conns f.conn = some c') :
    lookupA c'.shared.queries f.han = none := by
  unfold VoltQueryResult.setError at hc
  rw [hl] at hc
  exact connRemoveQuery_deletes _ _ _ _ hc

theorem setRowsQ_deletes (w : World) (fid : Nat) (r : VoltRows) (f : VoltQueryResult)
    (c' : VoltConn) (hl : lookupA w.queryFuts fid = some f)
    (hc : lookupA (VoltQueryResult.setRows w fid r).conns f.conn = some c') :
    lookupA c'.shared.queries f.han = none := by
  unfold VoltQueryResult.setRows at hc
  rw [hl] at hc
  exact connRemoveQuery_deletes _ _ _ _ hc

theorem setErrorE_deletes (w : World) (fid : Nat) (e : String) (f : VoltExecResult)
    (c' : VoltConn) (hl : lookupA w.execFuts fid = some f)
    (hc : lookupA (VoltExecResult.setError w fid e).conns f.conn = some c') :
    lookupA c'.shared.execs f.han = none := by
  unfold VoltExecResult.setError at hc
  rw [hl] at hc
  exact connRemoveExec_deletes _ _ _ _ hc

theorem setResultE_deletes (w : World) (fid : Nat) (r : Nat) (f : VoltExecResult)
    (w' : World) (c' : VoltConn)
    (hl : lookupA w.execFuts fid = some f)
    (hok : VoltExecResult.setResult w fid r = SetR.ok w')
    (hc : lookupA w'.conns f.conn = some c') :
    lookupA c'.shared.execs f.han = none := by
  unfold VoltExecResult.setResult at hok
  rw [hl] at hok
  revert hok
  split
  · next heq => exact absurd heq (by simp)
  · next f2 heq =>
      injection heq with heq
      subst heq
      intro hok
      by_cases hact : f.active = false
      · rw [if_pos hact] at hok
        cases hok
      · rw [if_neg hact] at hok
        simp only [] at hok
        injection hok with hok
        subst hok
        exact connRemoveExec_deletes _ _ _ _ hc

/-- C9: each resolving setter — `setRows`, `setError` (query variant),
`setError` (exec variant) and a successful `setResult` — deletes its handle
from the owning connection's `queries` (respectively `execs`) map in the
same operation; consequently, in every state reachable by a trace of
operations from the initial state, every future reachable through a
connection's outstanding maps — in particular every future id returned by
`ExecutingQueries`, and hence the snapshot `DrainAll` drains — is active. -/
theorem conn_maps_reference_only_active_futures :
    (∀ w fid e f c', lookupA w.queryFuts fid = some f →
       lookupA (VoltQueryResult.setError w fid e).conns f.conn = some c' →
       lookupA c'.shared.queries f.han = none) ∧
    (∀ w fid r f c', lookupA w.queryFuts fid = some f →
       lookupA (VoltQueryResult.setRows w fid r).conns f.conn = some c' →
       lookupA c'.shared.queries f.han = none) ∧
    (∀ w fid e f c', lookupA w.execFuts fid = some f →
       lookupA (VoltExecResult.setError w fid e).conns f.conn = some c' →
       lookupA c'.shared.execs f.han = none) ∧
    (∀ w fid r f w' c', lookupA w.execFuts fid = some f →
       VoltExecResult.setResult w fid r = SetR.ok w' →
       lookupA w'.conns f.conn = some c' →
       lookupA c'.shared.execs f.han = none) ∧
    (∀ ops cid c h fid, lookupA (runOps ops).conns cid = some c →
       (h, fid) ∈ c.shared.queries →
       ∃ f, lookupA (runOps ops).queryFuts fid = some f ∧ f.active = true) ∧
    (∀ ops cid c h fid, lookupA (runOps ops).conns cid = some c →
       (h, fid) ∈ c.shared.execs →
       ∃ f, lookupA (runOps ops).execFuts fid = some f ∧ f.active = true) ∧
    (∀ ops cid fid, fid ∈ VoltConn.ExecutingQueries (runOps ops) cid →
       fidQActive (runOps ops) fid = true) := by
  have hInv : ∀ ops : List Op, InvMaps (runOps ops) :=
    fun ops => InvMaps_run ops World.init InvMaps_init
  refine ⟨?_, ?_, ?_, ?_, ?_, ?_, ?_⟩
  · intro w fid e f c' hl hc
    exact setErrorQ_deletes w fid e f c' hl hc
  · intro w fid r f c' hl hc
    exact setRowsQ_deletes w fid r f c' hl hc
  · intro w fid e f c' hl hc
    exact setErrorE_deletes w fid e f c' hl hc
  · intro w fid r f w' c' hl hok hc
    exact setResultE_deletes w fid r f w' c' hl hok hc
  · intro ops cid c h fid hcid hmem
    rcases (hInv ops).2.2.1 cid c h fid hcid hmem with ⟨f, hf, _, _, hact⟩
    exact ⟨f, hf, hact⟩
  · intro ops cid c h fid hcid hmem
    rcases (hInv ops).2.2.2 cid c h fid hcid hmem with ⟨f, hf, _, _, hact⟩
    exact ⟨f, hf, hact⟩
  · intro ops cid fid hmem
    unfold VoltConn.ExecutingQueries at hmem
    revert hmem
    split
    · intro hmem
      simp at hmem
    · next c hcc =>
        intro hmem
        rcases List.mem_map.mp hmem with ⟨p, hp, hpe⟩
        have hp' : (p.1, fid) ∈ c.shared.queries := by
          rw [← hpe]
          exact hp
        rcases (hInv ops).2.2.1 cid c p.1 fid hcc hp' with ⟨f, hf, _, _, hact⟩
        unfold fidQActive
        rw [hf]
        exact hact

/-- Witness for C9 after `OpenConn` plus one `QueryAsync`: the single map
entry references an existing, active future, and `ExecutingQueries` agrees. -/
theorem conn_maps_reference_only_active_futures_witness :
    (∃ f, lookupA (runOps [Op.openC, Op.queryA 0 none]).queryFuts 0 = some f ∧
       f.active = true) ∧
    fidQActive (runOps [Op.openC, Op.queryA 0 none]) 0 = true := by
  have h := conn_maps_reference_only_active_futures
  refine ⟨h.2.2.2.2.1 [Op.openC, Op.queryA 0 none] 0 _ 1 0 rfl (by decide), ?_⟩
  exact h.2.2.2.2.2.2 [Op.openC, Op.queryA 0 none] 0 0 (by decide)

theorem stepOp_alloc (w : World) (o : Op) :
    ((stepOp w o).qHandle = w.qHandle ∧ (stepOp w o).allocated = w.allocated) ∨
    ((stepOp w o).qHandle = int64Wrap (w.qHandle + 1) ∧
     (stepOp w o).allocated = w.allocated ++ [int64Wrap (w.qHandle + 1)]) := by
  cases o with
  | openC => exact Or.inl ⟨rfl, rfl⟩
  | closeC cid => exact Or.inl ⟨(close_frame w cid).1, (close_frame w cid).2.1⟩
  | exitC cid =>
      exact Or.inl ⟨(listenerExit_frame w cid).1, (listenerExit_frame w cid).2.1⟩
  | readRows fid resp => exact Or.inl (rowsRead_frame w fid resp)
  | readResult fid resp => exact Or.inl (resultRead_frame w fid resp)
  | drainC vqrs sched => exact Or.inl (drainLoop_frame sched _ w)
  | execS cid ser resp =>
      simp only [stepOp]
      unfold VoltConn.Exec
      split
      · exact Or.inl ⟨rfl, rfl⟩
      · split
        · exact Or.inl ⟨rfl, rfl⟩
        · simp only []
          split
          · exact Or.inr ⟨rfl, rfl⟩
          · exact Or.inr ⟨rfl, rfl⟩
  | execA cid ser =>
      simp only [stepOp]
      unfold VoltConn.ExecAsync
      split
      · exact Or.inl ⟨rfl, rfl⟩
      · split
        · exact Or.inl ⟨rfl, rfl⟩
        · simp only []
          split
          · exact Or.inr ⟨rfl, rfl⟩
          · exact Or.inr ⟨rfl, rfl⟩
  | queryS cid ser resp =>
      simp only [stepOp]
      unfold VoltConn.Query
      split
      · exact Or.inl ⟨rfl, rfl⟩
      · split
        · exact Or.inl ⟨rfl, rfl⟩
        · simp only []
          split
          · exact Or.inr ⟨rfl, rfl⟩
          · exact Or.inr ⟨rfl, rfl⟩
  | queryA cid ser =>
      simp only [stepOp]
      unfold VoltConn.QueryAsync
      split
      · exact Or.inl ⟨rfl, rfl⟩
      · split
        · exact Or.inl ⟨rfl, rfl⟩
        · simp only []
          split
          · exact Or.inr ⟨rfl, rfl⟩
          · exact Or.inr ⟨rfl, rfl⟩

theorem run_alloc_invariant (ops : List Op) (w : World)
    (h0 : 0 ≤ w.qHandle)
    (hb : w.qHandle + ops.length < 2 ^ 63)
    (hup : ∀ a ∈ w.allocated, a ≤ w.qHandle)
    (hpw : List.Pairwise (fun a b => a < b) w.allocated) :
    List.Pairwise (fun a b => a < b) (run w ops).allocated := by
  induction ops generalizing w with
  | nil => exact hpw
  | cons o os ih =>
      simp only [List.length_cons] at hb
      push_cast at hb
      rcases stepOp_alloc w o with ⟨hq, ha⟩ | ⟨hq, ha⟩
      · apply ih (stepOp w o)
        · rw [hq]
          exact h0
        · rw [hq]
          omega
        · rw [hq, ha]
          exact hup
        · rw [ha]
          exact hpw
      · have hwrap : int64Wrap (w.qHandle + 1) = w.qHandle + 1 := by
          apply int64Wrap_eq_self
          · omega
          · omega
        apply ih (stepOp w o)
        · rw [hq, hwrap]
          omega
        · rw [hq, hwrap]
          omega
        · rw [hq, ha, hwrap]
          intro a hma
          rcases List.mem_append.mp hma with hma | hma
          · have := hup a hma
            omega
          · simp at hma
            omega
        · rw [ha, hwrap]
          rw [List.pairwise_append]
          refine ⟨hpw, by simp, ?_⟩
          intro a hma b hmb
          simp at hmb
          subst hmb
          have := hup a hma
          omega

/-- C4: over any trace of operations — spanning any number of sequentially
opened and closed connections — the handles handed out by the atomic
counter `qHandle`, ghost-logged oldest-first in `allocated`, are strictly
increasing: each allocation exceeds every previously allocated handle, so
handles are unique for the lifetime of the process.  The hypothesis keeps
the 64-bit counter short of its wraparound point, which the spec scopes out
as practically unreachable. -/
theorem handles_strictly_increasing (ops : List Op)
    (hb : (ops.length : Int) < 2 ^ 63) :
    List.Pairwise (fun a b => a < b) (runOps ops).allocated := by
  apply run_alloc_invariant ops World.init
  · exact le_refl 0
  · show (0 : Int) + ops.length < 2 ^ 63
    omega
  · intro a hma
    simp [World.init] at hma
  · exact List.Pairwise.nil

/-- Witness for C4: a trace with calls on two sequentially opened
connections allocates handles 1, 2, 3 — strictly increasing across the
process. -/
theorem handles_strictly_increasing_witness :
    ((([Op.openC, Op.execA 0 none, Op.closeC 0, Op.openC, Op.queryA 1 none,
        Op.queryS 1 none VoltRows.zero] : List Op).length : Int) < 2 ^ 63) ∧
    (runOps [Op.openC, Op.execA 0 none, Op.closeC 0, Op.openC, Op.queryA 1 none,
        Op.queryS 1 none VoltRows.zero]).allocated = [1, 2, 3] ∧
    List.Pairwise (fun a b => a < b)
      (runOps [Op.openC, Op.execA 0 none, Op.closeC 0, Op.openC, Op.queryA 1 none,
        Op.queryS 1 none VoltRows.zero]).allocated := by
  refine ⟨by decide, by decide, handles_strictly_increasing _ (by decide)⟩
